import Mathlib

/-!
# A verification development for the `data_processor` module

This file gives a shallow embedding, in Lean 4, of the tabular-data
utility module of the repository (`src/data_processor.py`), and proves
(or refutes) the properties claimed about it.

Modelling conventions, fixed once here:

* A cell of a table is a `Value`: an integer (`int`), a floating-point
  number (`float`, modelled as a rational since no claim depends on
  rounding), a piece of text (`str`), or the missing-value marker
  (`missing`, the embedding of `NaN`/`None`).
* A `Table` (the embedding of a `pandas.DataFrame`) is a list of column
  names, a row-label index, and a list of rows; rows are lists of cells,
  positionally aligned with the names.  A freshly constructed table has
  index `0, 1, ..., n-1`; operations that keep a subset of the rows keep
  their labels, and `reset_index` renumbers them, exactly as in pandas.
* The dtype of a column is inferred from its cells the way pandas
  infers it at construction: any textual cell gives `object`; otherwise
  any float or missing cell gives `float64` (a missing marker is stored
  as the float `NaN`, so its column is a float column); otherwise a
  nonempty all-integer column is `int64`; a column with no cells is
  `object` (the pandas default for empty frames).
* Errors are the taxonomy of the module: `notFound`, `emptySource`,
  `unknownColumn`, `notNumeric`, `unsupportedOperation`,
  `malformedInput` — plus one error the taxonomy does not name:
  `aggregationTypeError`, the `TypeError` pandas raises when a groupby
  aggregation meets values it cannot combine (`"agg function failed"`
  in pandas ≥ 2.0, `DataError` in older versions).  A fallible
  operation returns `Except Err _`.
* The filesystem, for `load_csv_data` / `save_to_json` /
  `load_from_json`, is an association list from paths to file contents.
-/

/-- A cell value: integer, float (as ℚ), text, or the missing marker. -/
inductive Value
  | int (n : ℤ)
  | float (q : ℚ)
  | str (s : String)
  | missing
deriving DecidableEq

/-- The error taxonomy of the module (section 7 of the spec), plus
`aggregationTypeError`: the `TypeError` pandas raises when a groupby
aggregation meets values it cannot combine — an error the taxonomy
does not name. -/
inductive Err
  | notFound (path : String)
  | emptySource
  | unknownColumn (c : String)
  | notNumeric (c : String)
  | unsupportedOperation (o : String)
  | malformedInput
  | aggregationTypeError
deriving DecidableEq

/-- The embedding of a `pandas.DataFrame`: named columns, a row-label
index, and rows of cells.  Well-formed tables have `index` and `rows` of
the same length and every row of length `names.length`. -/
structure Table where
  names : List String
  index : List Nat
  rows : List (List Value)
deriving DecidableEq

deriving instance DecidableEq for Except

namespace Value

/-- Is this cell the missing marker? -/
def isMissing : Value → Bool
  | .missing => true
  | _ => false

/-- Is this cell textual? -/
def isStr : Value → Bool
  | .str _ => true
  | _ => false

/-- Is this cell a float or the missing marker (stored as `NaN`)? -/
def isFloatOrMissing : Value → Bool
  | .float _ => true
  | .missing => true
  | _ => false

/-- The numeric content of a cell, if any. -/
def toRat : Value → Option ℚ
  | .int n => some (n : ℚ)
  | .float q => some q
  | _ => none

/-- A plainly numeric cell (an integer or a float); the reading of
"numeric value" used by the spec's data model, under which the missing
marker is not a value at all. -/
def isNumericValue : Value → Bool
  | .int _ => true
  | .float _ => true
  | _ => false

/-- The text of a textual cell, if any. -/
def strContent : Value → Option String
  | .str s => some s
  | _ => none

end Value

/-- Elementwise equality as pandas computes `df[column] == value`: two
numeric cells are equal when they denote the same number, two textual
cells when the text agrees, and the missing marker (`NaN`) is equal to
nothing, not even to itself. -/
def valEq : Value → Value → Bool
  | .int a, .int b => a == b
  | .int a, .float b => (a : ℚ) == b
  | .float a, .int b => a == (b : ℚ)
  | .float a, .float b => a == b
  | .str s, .str t => s == t
  | _, _ => false

/-- Code-point lexicographic order on text, as Python compares `str`. -/
def charListLe : List Char → List Char → Bool
  | [], _ => true
  | _ :: _, [] => false
  | a :: as, b :: bs =>
    if a.toNat < b.toNat then true
    else if b.toNat < a.toNat then false
    else charListLe as bs

/-- The total order pandas uses to sort group keys: numbers by value,
text lexicographically; across kinds the order is conventional (numbers
before text, the missing marker first) — a single key column never mixes
kinds. -/
def valLe : Value → Value → Bool
  | .missing, _ => true
  | _, .missing => false
  | .int a, .int b => decide (a ≤ b)
  | .int a, .float b => decide ((a : ℚ) ≤ b)
  | .int _, .str _ => true
  | .float a, .int b => decide (a ≤ (b : ℚ))
  | .float a, .float b => decide (a ≤ b)
  | .float _, .str _ => true
  | .str _, .int _ => false
  | .str _, .float _ => false
  | .str s, .str t => charListLe s.data t.data

/-- Does a row contain the missing marker in any column? -/
def rowHasMissing (r : List Value) : Bool :=
  r.any Value.isMissing

namespace Table

/-- The position of a named column, as `column in df.columns` /
`df[column]` locate it. -/
def colIdx (t : Table) (c : String) : Option Nat :=
  t.names.findIdx? (fun n => n == c)

/-- The cells of the column at a position (missing when a row is too
short, as pandas pads short CSV rows with `NaN`). -/
def colCells (t : Table) (j : Nat) : List Value :=
  t.rows.map (fun r => r.getD j Value.missing)

end Table

/-- The dtype tag pandas infers for a column from its cells (see the
module comment): `object`, `float64` or `int64`. -/
def dtypeOf (cells : List Value) : String :=
  if cells.any Value.isStr then "object"
  else if cells.any Value.isFloatOrMissing then "float64"
  else if cells.isEmpty then "object"
  else "int64"

/-- `pd.api.types.is_numeric_dtype` on an inferred dtype tag. -/
def isNumericDtype (d : String) : Bool :=
  d == "int64" || d == "float64"

/-- The numeric cells of a column, in order — what the pandas
aggregations (`mean`, `std`, ...) operate on after skipping `NaN`. -/
def numericVals (cells : List Value) : List ℚ :=
  cells.filterMap Value.toRat

/-! ## Statistics (`calculate_statistics`) -/

/-- Sum of a list of rationals. -/
def ratSum (xs : List ℚ) : ℚ := xs.sum

/-- `Series.mean`: the arithmetic mean of the (non-missing) numeric
values.  Division by zero yields the junk value `0` where pandas yields
`NaN`; no claim touches the empty case. -/
def ratMean (xs : List ℚ) : ℚ := xs.sum / xs.length

/-- `Series.median`: middle of the sorted values (average of the two
middles when the count is even). -/
def ratMedian (xs : List ℚ) : ℚ :=
  let s := List.insertionSort (· ≤ ·) xs
  let n := s.length
  if n % 2 = 1 then s.getD (n / 2) 0
  else (s.getD (n / 2 - 1) 0 + s.getD (n / 2) 0) / 2

/-- The square of `Series.std()`: the sample variance, dividing by
`n - 1` (`ddof=1`, the pandas default).  The code stores the square
root, an irrational number in general; the model keeps its square so as
to remain in ℚ — the convention (`n-1` versus `n`) is fully visible in
the square. -/
def sampleVariance (xs : List ℚ) : ℚ :=
  let m := ratMean xs
  (xs.map (fun x => (x - m) ^ 2)).sum / (xs.length - 1 : ℕ)

/-- Minimum of a list of rationals (junk `0` on the empty list). -/
def ratMin : List ℚ → ℚ
  | [] => 0
  | x :: xs => xs.foldl min x

/-- Maximum of a list of rationals (junk `0` on the empty list). -/
def ratMax : List ℚ → ℚ
  | [] => 0
  | x :: xs => xs.foldl max x

/-- The dictionary `calculate_statistics` returns.  The field `stdSq`
models the `'std'` entry squared (see `sampleVariance`); `count` is the
non-missing count `Series.count()`. -/
structure StatisticsRecord where
  mean : ℚ
  median : ℚ
  stdSq : ℚ
  min : ℚ
  max : ℚ
  count : ℕ
deriving DecidableEq

/-- `calculate_statistics(df, column)`: `KeyError` when the column is
absent, `ValueError` when its dtype is not numeric, otherwise the
summary over the column's non-`NaN` values. -/
def calculate_statistics (t : Table) (column : String) : Except Err StatisticsRecord :=
  match t.colIdx column with
  | none => .error (.unknownColumn column)
  | some j =>
    let cells := t.colCells j
    if !(isNumericDtype (dtypeOf cells)) then .error (.notNumeric column)
    else
      let xs := numericVals cells
      .ok ⟨ratMean xs, ratMedian xs, sampleVariance xs, ratMin xs, ratMax xs, xs.length⟩

/-! ## Cleaning (`clean_data`) and filtering (`filter_by_column`) -/

/-- `DataFrame.dropna()`: keep the rows without a missing marker,
keeping their index labels. -/
def Table.dropna (t : Table) : Table :=
  let kept := (t.index.zip t.rows).filter (fun p => !(rowHasMissing p.2))
  ⟨t.names, kept.map Prod.fst, kept.map Prod.snd⟩

/-- The kernel of `DataFrame.drop_duplicates()`: keep each labelled row
whose row of cells has not been seen before (first occurrence wins). -/
def dedupRowsAux {α β : Type} [DecidableEq β] (seen : List β) :
    List (α × β) → List (α × β)
  | [] => []
  | p :: ps => if p.2 ∈ seen then dedupRowsAux seen ps else p :: dedupRowsAux (p.2 :: seen) ps

/-- `DataFrame.drop_duplicates()`: drop the rows equal (in every column)
to an earlier row, keeping index labels.  Like pandas, two missing
markers in the same column count as equal here. -/
def Table.drop_duplicates (t : Table) : Table :=
  let kept := dedupRowsAux [] (t.index.zip t.rows)
  ⟨t.names, kept.map Prod.fst, kept.map Prod.snd⟩

/-- `DataFrame.reset_index(drop=True)`: renumber the rows `0..n-1`. -/
def Table.reset_index (t : Table) : Table :=
  ⟨t.names, List.range t.rows.length, t.rows⟩

/-- `clean_data(df)`: drop rows with missing values, drop duplicate
rows, reset the index. -/
def clean_data (t : Table) : Table :=
  t.dropna.drop_duplicates.reset_index

/-- `filter_by_column(df, column, value)`: `KeyError` when the column is
absent; otherwise `df[df[column] == value].reset_index(drop=True)`. -/
def filter_by_column (t : Table) (column : String) (value : Value) : Except Err Table :=
  match t.colIdx column with
  | none => .error (.unknownColumn column)
  | some j =>
    let kept := (t.index.zip t.rows).filter (fun p => valEq (p.2.getD j Value.missing) value)
    .ok ⟨t.names, List.range kept.length, kept.map Prod.snd⟩

/-! ## Type validation (`validate_data_types`) -/

/-- Is `pat` a contiguous substring of `hay`?  The embedding of the
Python containment test `pat in hay` on strings. -/
def containsSub (pat : List Char) : List Char → Bool
  | [] => pat.isEmpty
  | c :: t => pat.isPrefixOf (c :: t) || containsSub pat t

/-- String containment, `pat in hay` in Python. -/
def strContains (hay pat : String) : Bool :=
  containsSub pat.data hay.data

/-- `validate_data_types(df, expected_types)`, iterating the expectation
pairs in order and returning `False` at the first failing pair:
an absent column fails; `'numeric'` fails when the column's dtype is not
numeric; `'string'` fails when the dtype tag is not `'object'`; any
other expectation fails when it is not a substring of the dtype tag
(`expected_type not in actual_type`). -/
def validate_data_types (t : Table) : List (String × String) → Bool
  | [] => true
  | (column, expected) :: rest =>
    match t.colIdx column with
    | none => false
    | some j =>
      let actual := dtypeOf (t.colCells j)
      if expected == "numeric" && !(isNumericDtype actual) then false
      else if expected == "string" && !(actual == "object") then false
      else if !(strContains actual expected) && !(expected == "numeric") && !(expected == "string") then false
      else validate_data_types t rest

/-! ## Grouping (`group_by_column`) -/

/-- The sort order on group keys, as a relation. -/
def vle (a b : Value) : Prop := valLe a b = true

instance : DecidableRel vle := fun a b => by unfold vle; infer_instance

/-- The key order is total (needed to sort group keys). -/
instance : IsTotal Value vle := by
  have htot : ∀ s t, charListLe s t = true ∨ charListLe t s = true := by
    intro s
    induction s with
    | nil => intro t; left; rfl
    | cons a as ih =>
      intro t
      cases t with
      | nil => right; rfl
      | cons b bs =>
        rw [charListLe, charListLe]
        by_cases h1 : a.toNat < b.toNat
        · left
          rw [if_pos h1]
        · by_cases h2 : b.toNat < a.toNat
          · right
            rw [if_pos h2]
          · rw [if_neg h1, if_neg h2, if_neg h2, if_neg h1]
            exact ih bs
  refine ⟨fun a b => ?_⟩
  rcases a with n | q | s | _ <;> rcases b with m | p | t | _ <;>
    simp only [vle, valLe, decide_eq_true_eq] <;>
    first
      | exact Or.inl trivial
      | exact Or.inr trivial
      | exact Or.inl rfl
      | exact Or.inr rfl
      | omega
      | exact le_total _ _
      | exact htot _ _

/-- The key order is transitive (needed to sort group keys). -/
instance : IsTrans Value vle := by
  have htr : ∀ s t u, charListLe s t = true → charListLe t u = true →
      charListLe s u = true := by
    intro s
    induction s with
    | nil => intro t u _ _; rfl
    | cons a as ih =>
      intro t u h1 h2
      cases t with
      | nil => simp [charListLe] at h1
      | cons b bs =>
        cases u with
        | nil => simp [charListLe] at h2
        | cons c cs =>
          rw [charListLe] at h1 h2 ⊢
          by_cases hab : a.toNat < b.toNat
          · by_cases hbc : b.toNat < c.toNat
            · rw [if_pos (by omega)]
            · by_cases hcb : c.toNat < b.toNat
              · rw [if_neg hbc, if_pos hcb] at h2
                exact absurd h2 (by simp)
              · rw [if_pos (by omega)]
          · by_cases hba : b.toNat < a.toNat
            · rw [if_neg hab, if_pos hba] at h1
              exact absurd h1 (by simp)
            · rw [if_neg hab, if_neg hba] at h1
              by_cases hbc : b.toNat < c.toNat
              · rw [if_pos (by omega)]
              · by_cases hcb : c.toNat < b.toNat
                · rw [if_neg hbc, if_pos hcb] at h2
                  exact absurd h2 (by simp)
                · rw [if_neg hbc, if_neg hcb] at h2
                  rw [if_neg (by omega), if_neg (by omega)]
                  exact ih bs cs h1 h2
  refine ⟨fun a b c hab hbc => ?_⟩
  rcases a with n | q | s | _ <;> rcases b with m | p | t | _ <;> rcases c with k | r | u | _ <;>
    (try simp only [vle, valLe, decide_eq_true_eq] at hab hbc ⊢) <;>
    first
      | trivial
      | rfl
      | omega
      | exact absurd hab Bool.false_ne_true
      | exact absurd hbc Bool.false_ne_true
      | exact htr _ _ _ hab hbc
      | ((try qify at hab); (try qify at hbc); (try qify); linarith)

/-- Minimum cell of a list under the key order (junk `missing` on the
empty list). -/
def valListMin : List Value → Value
  | [] => Value.missing
  | x :: xs => xs.foldl (fun a b => if valLe a b then a else b) x

/-- Maximum cell of a list under the key order (junk `missing` on the
empty list). -/
def valListMax : List Value → Value
  | [] => Value.missing
  | x :: xs => xs.foldl (fun a b => if valLe b a then a else b) x

/-- One aggregation of a `SeriesGroupBy` over one group's cells,
mirroring the `elif` chain of the code on the verb.  Every verb skips
`NaN` (the non-missing cells of the group are aggregated); the empty
remainder gives `NaN` (`sum` gives `0`).  `count` counts the non-missing
cells and never fails.  The other verbs fail the way pandas fails (a
`TypeError`, `"agg function failed"`, in pandas ≥ 2.0; `DataError`
before): `mean` cannot combine textual values at all, while `sum`
concatenates an all-textual group and `min`/`max` compare it
lexicographically, so those three fail exactly on a group mixing
textual and numeric values (Python `+` and `<` between `str` and a
number raise).  Numeric sums and means are returned on the numeric view
as `float` cells, abstracting the `int64`/`float64` result dtype;
`min`/`max` return the extremal cell itself. -/
def aggregateOp (o : String) (cells : List Value) : Except Err Value :=
  if o == "count" then
    .ok (.int ((cells.filter (fun v => !(v.isMissing))).length : ℤ))
  else if o == "mean" then
    if (cells.filter (fun v => !(v.isMissing))).any Value.isStr then
      .error .aggregationTypeError
    else if (cells.filter (fun v => !(v.isMissing))).isEmpty then .ok .missing
    else .ok (.float (ratMean (numericVals cells)))
  else if o == "sum" then
    if (cells.filter (fun v => !(v.isMissing))).any Value.isStr then
      if (cells.filter (fun v => !(v.isMissing))).all Value.isStr then
        .ok (.str (String.join ((cells.filter (fun v => !(v.isMissing))).filterMap
          Value.strContent)))
      else .error .aggregationTypeError
    else .ok (.float (ratSum (numericVals cells)))
  else if o == "min" then
    if (cells.filter (fun v => !(v.isMissing))).any Value.isStr then
      if (cells.filter (fun v => !(v.isMissing))).all Value.isStr then
        .ok (valListMin (cells.filter (fun v => !(v.isMissing))))
      else .error .aggregationTypeError
    else if (cells.filter (fun v => !(v.isMissing))).isEmpty then .ok .missing
    else .ok (valListMin (cells.filter (fun v => !(v.isMissing))))
  else if o == "max" then
    if (cells.filter (fun v => !(v.isMissing))).any Value.isStr then
      if (cells.filter (fun v => !(v.isMissing))).all Value.isStr then
        .ok (valListMax (cells.filter (fun v => !(v.isMissing))))
      else .error .aggregationTypeError
    else if (cells.filter (fun v => !(v.isMissing))).isEmpty then .ok .missing
    else .ok (valListMax (cells.filter (fun v => !(v.isMissing))))
  else .ok .missing

/-- The valid aggregation verbs of `group_by_column`. -/
def validOperations : List String := ["mean", "sum", "count", "min", "max"]

/-- The distinct non-missing keys of a cell list, in ascending order:
`groupby` drops `NaN` keys and sorts the groups (`sort=True`, the
default). -/
def sortedKeys (cells : List Value) : List Value :=
  List.insertionSort vle ((cells.filter (fun v => !(v.isMissing))).dedup)

/-- The rows of the grouped result, one per key in order: each key
paired with its group's aggregate.  A failing group aborts the whole
call, as the exception pandas raises does. -/
def aggRows (o : String) (jg ja : Nat) (rs : List (List Value)) :
    List Value → Except Err (List (List Value))
  | [] => .ok []
  | k :: ks =>
    match aggregateOp o ((rs.filter (fun r => r.getD jg Value.missing == k)).map
        (fun r => r.getD ja Value.missing)) with
    | .error e => .error e
    | .ok v =>
      match aggRows o jg ja rs ks with
      | .error e => .error e
      | .ok out => .ok ([k, v] :: out)

/-- `group_by_column(df, group_column, agg_column, operation)`:
`KeyError` when either column is absent, `ValueError` when the verb is
not one of the five, the aggregation's own `TypeError` when some group
cannot be combined under the verb, and otherwise
`df.groupby(group_column)[agg_column].<operation>().reset_index()` —
a two-column table, one row per distinct group key in ascending key
order. -/
def group_by_column (t : Table) (group_column agg_column operation : String) : Except Err Table :=
  match t.colIdx group_column with
  | none => .error (.unknownColumn group_column)
  | some jg =>
    match t.colIdx agg_column with
    | none => .error (.unknownColumn agg_column)
    | some ja =>
      if !(validOperations.contains operation) then .error (.unsupportedOperation operation)
      else
        match aggRows operation jg ja t.rows (sortedKeys (t.colCells jg)) with
        | .error e => .error e
        | .ok rows => .ok ⟨[group_column, agg_column], List.range rows.length, rows⟩

/-! ## CSV loading (`load_csv_data`) -/

/-- The filesystem, for the I/O operations: paths mapped to contents. -/
def FS := List (String × String)

/-- Look a path up in the filesystem. -/
def fsLookup (fs : FS) (p : String) : Option String :=
  (List.find? (fun kv => kv.1 == p) fs).map Prod.snd

/-- Split a character list on a separator (`"".split` semantics: the
empty input gives one empty field). -/
def splitOnChar (sep : Char) : List Char → List (List Char)
  | [] => [[]]
  | c :: cs =>
    let rest := splitOnChar sep cs
    if c == sep then [] :: rest
    else
      match rest with
      | [] => [[c]]
      | r :: rs => (c :: r) :: rs

/-- Is this a decimal digit? -/
def isDigitChar (c : Char) : Bool :=
  48 ≤ c.toNat && c.toNat ≤ 57

/-- The value of a digit character. -/
def digitVal (c : Char) : Nat := c.toNat - 48

/-- Parse an unsigned decimal integer (all digits, nonempty). -/
def parseNatChars (cs : List Char) : Option Nat :=
  if cs.isEmpty then none
  else if cs.all isDigitChar then some (cs.foldl (fun a c => a * 10 + digitVal c) 0)
  else none

/-- Parse a signed decimal integer, as the CSV reader types an `int64`
cell. -/
def parseIntChars : List Char → Option ℤ
  | '-' :: rest => (parseNatChars rest).map (fun n => -(n : ℤ))
  | cs => (parseNatChars cs).map (fun n => (n : ℤ))

/-- Parse a decimal number with an optional fractional part, as the CSV
reader types a `float64` cell (the model covers plain decimal notation,
the only shape the repository uses). -/
def parseFloatChars (cs : List Char) : Option ℚ :=
  let core : List Char → Option ℚ := fun body =>
    match splitOnChar '.' body with
    | [ip] => (parseNatChars ip).map (fun n => (n : ℚ))
    | [ip, fp] =>
      if (ip.all isDigitChar && fp.all isDigitChar) && !(ip.isEmpty && fp.isEmpty) then
        some ((ip.foldl (fun a c => a * 10 + digitVal c) 0 : ℕ) +
          (fp.foldl (fun a c => a * 10 + digitVal c) 0 : ℕ) / ((10 : ℚ) ^ fp.length))
      else none
    | _ => none
  match cs with
  | '-' :: rest => (core rest).map (fun q => -q)
  | _ => core cs

/-- The per-column type the CSV reader infers: a column of integer
literals is `int64`; a column of numbers where cells may be empty (and
become `NaN`) is `float64`; anything else is text. -/
inductive ColKind
  | kInt
  | kFloat
  | kStr
deriving DecidableEq

/-- Infer the kind of one raw CSV column. -/
def inferKind (raw : List (List Char)) : ColKind :=
  if raw.all (fun s => (parseIntChars s).isSome) then .kInt
  else if raw.all (fun s => s.isEmpty || (parseFloatChars s).isSome) then .kFloat
  else .kStr

/-- Type one raw CSV cell at a column kind (an empty cell is `NaN`). -/
def convertCell : ColKind → List Char → Value
  | .kInt, s => .int ((parseIntChars s).getD 0)
  | .kFloat, s => if s.isEmpty then .missing else .float ((parseFloatChars s).getD 0)
  | .kStr, s => if s.isEmpty then .missing else .str (String.mk s)

/-- `load_csv_data(file_path)`: `FileNotFoundError` when the path does
not exist; `pd.errors.EmptyDataError` (`"No columns to parse"`) when the
content has no non-blank line at all; otherwise the first non-blank line
is the header and the remaining non-blank lines are the data rows, typed
per column (a header-only file yields a table with zero rows).  Short
rows are padded with `NaN`, as `read_csv` pads missing trailing
fields. -/
def load_csv_data (fs : FS) (file_path : String) : Except Err Table :=
  match fsLookup fs file_path with
  | none => .error (.notFound file_path)
  | some content =>
    match (splitOnChar '\n' content.data).filter (fun l => !(l.isEmpty)) with
    | [] => .error .emptySource
    | header :: body =>
      let names := (splitOnChar ',' header).map String.mk
      let rawRows := body.map (splitOnChar ',')
      let kinds := (List.range names.length).map
        (fun j => inferKind (rawRows.map (fun r => r.getD j [])))
      let rows := rawRows.map
        (fun r => (List.range names.length).map
          (fun j => convertCell (kinds.getD j .kStr) (r.getD j [])))
      .ok ⟨names, List.range rows.length, rows⟩

/-! ## Derived descriptions used to state the claims -/

/-- Keep the first occurrence of each element, dropping every element
equal to an earlier kept one — the row-level description of
`drop_duplicates`. -/
def dedupRowsFirst {β : Type} [DecidableEq β] (seen : List β) : List β → List β
  | [] => []
  | r :: rs => if r ∈ seen then dedupRowsFirst seen rs else r :: dedupRowsFirst (r :: seen) rs

/-- One expectation pair of `validate_data_types`, in isolation: the
column must be present; `'numeric'` demands a numeric dtype, `'string'`
demands the exact tag `'object'`, and any other expectation demands to
occur as a substring of the dtype tag. -/
def pairOk (t : Table) (p : String × String) : Bool :=
  match t.colIdx p.1 with
  | none => false
  | some j =>
    let actual := dtypeOf (t.colCells j)
    if p.2 == "numeric" then isNumericDtype actual
    else if p.2 == "string" then actual == "object"
    else strContains actual p.2


/-! ## JSON values and files (`save_to_json` / `load_from_json`) -/

/-- A JSON value as Python's `json` handles it, numbers restricted to
integers (floating-point text formatting is outside the model). -/
inductive JVal
  | null
  | bool (b : Bool)
  | int (n : ℤ)
  | str (s : String)
  | arr (xs : List JVal)
  | obj (kvs : List (String × JVal))

/-- The left brace character, written by code point. -/
def lbrace : Char := Char.ofNat 123

/-- The right brace character, written by code point. -/
def rbrace : Char := Char.ofNat 125

/-- One hexadecimal digit, lowercase as Python prints them. -/
def hexDigitChar (n : Nat) : Char :=
  if n < 10 then Char.ofNat (48 + n) else Char.ofNat (87 + n)

/-- Four hexadecimal digits, `'\\u%04x' % n`. -/
def hex4 (n : Nat) : List Char :=
  [hexDigitChar (n / 4096 % 16), hexDigitChar (n / 256 % 16),
   hexDigitChar (n / 16 % 16), hexDigitChar (n % 16)]

/-- How `json.dump` (with its default `ensure_ascii=True`) writes one
character of a string: named two-character escapes for quote, backslash
and the common control characters; `\uXXXX` for every other character
outside printable ASCII, as a surrogate pair beyond `0xFFFF`; the
character itself otherwise. -/
def escapeChar (c : Char) : List Char :=
  if c == '"' then ['\\', '"']
  else if c == '\\' then ['\\', '\\']
  else if c == '\n' then ['\\', 'n']
  else if c == '\r' then ['\\', 'r']
  else if c == '\t' then ['\\', 't']
  else if c.toNat == 8 then ['\\', 'b']
  else if c.toNat == 12 then ['\\', 'f']
  else if c.toNat < 32 || 126 < c.toNat then
    if c.toNat < 65536 then '\\' :: 'u' :: hex4 c.toNat
    else
      ('\\' :: 'u' :: hex4 (55296 + (c.toNat - 65536) / 1024)) ++
        ('\\' :: 'u' :: hex4 (56320 + (c.toNat - 65536) % 1024))
  else [c]

/-- Escape a whole string body. -/
def escapeList (cs : List Char) : List Char :=
  cs.foldr (fun c acc => escapeChar c ++ acc) []

/-- The decimal digits of a natural number. -/
def natDigits (n : Nat) : List Char :=
  if h : n < 10 then [Char.ofNat (48 + n)]
  else natDigits (n / 10) ++ [Char.ofNat (48 + n % 10)]
decreasing_by exact Nat.div_lt_self (by omega) (by omega)

/-- `repr` of an integer. -/
def renderInt (n : ℤ) : List Char :=
  if n < 0 then '-' :: natDigits n.natAbs else natDigits n.natAbs

/-- A rendered, quoted string. -/
def renderStr (s : String) : List Char :=
  '"' :: (escapeList s.data ++ ['"'])

/-- The newline-plus-indentation `json.dump(indent=2)` writes before an
item at nesting level `lvl`. -/
def nlind (lvl : Nat) : List Char :=
  '\n' :: List.replicate (2 * lvl) ' '

mutual

/-- `json.dump(value, indent=2)`: the exact text CPython produces for a
value at nesting level `lvl`. -/
def renderJ : Nat → JVal → List Char
  | _, .null => ['n', 'u', 'l', 'l']
  | _, .bool true => ['t', 'r', 'u', 'e']
  | _, .bool false => ['f', 'a', 'l', 's', 'e']
  | _, .int n => renderInt n
  | _, .str s => renderStr s
  | _, .arr [] => ['[', ']']
  | lvl, .arr (x :: xs) =>
    '[' :: (nlind (lvl + 1) ++ renderJ (lvl + 1) x ++ renderArrTail (lvl + 1) xs ++
      nlind lvl ++ [']'])
  | _, .obj [] => [lbrace, rbrace]
  | lvl, .obj ((k, v) :: kvs) =>
    lbrace :: (nlind (lvl + 1) ++ renderStr k ++ [':', ' '] ++ renderJ (lvl + 1) v ++
      renderObjTail (lvl + 1) kvs ++ nlind lvl ++ [rbrace])

/-- The remaining array items, each preceded by `,` and fresh-line
indentation. -/
def renderArrTail : Nat → List JVal → List Char
  | _, [] => []
  | lvl, x :: xs => ',' :: (nlind lvl ++ renderJ lvl x ++ renderArrTail lvl xs)

/-- The remaining object items. -/
def renderObjTail : Nat → List (String × JVal) → List Char
  | _, [] => []
  | lvl, (k, v) :: kvs =>
    ',' :: (nlind lvl ++ renderStr k ++ [':', ' '] ++ renderJ lvl v ++ renderObjTail lvl kvs)

end

/-- JSON whitespace, as `json.load` skips it. -/
def isWsChar (c : Char) : Bool :=
  c == ' ' || c == '\t' || c == '\n' || c == '\r'

/-- Skip leading whitespace. -/
def skipWs (cs : List Char) : List Char :=
  cs.dropWhile isWsChar

/-- The number a digit string denotes. -/
def digitsToNat (ds : List Char) : Nat :=
  ds.foldl (fun a c => a * 10 + digitVal c) 0

/-- The numeric value of a hexadecimal digit character (either case). -/
def hexVal (c : Char) : Option Nat :=
  if 48 ≤ c.toNat && c.toNat ≤ 57 then some (c.toNat - 48)
  else if 97 ≤ c.toNat && c.toNat ≤ 102 then some (c.toNat - 87)
  else if 65 ≤ c.toNat && c.toNat ≤ 70 then some (c.toNat - 55)
  else none

/-- Expect a literal suffix (the tail of `null`, `true`, `false`). -/
def expectLit (pat cs : List Char) : Option (List Char) :=
  if pat.isPrefixOf cs then some (cs.drop pat.length) else none

/-- The low-surrogate continuation of a `\uXXXX` escape: expects
`\uXXXX` with a low surrogate and combines it with the high surrogate
`n`. -/
def parseULow (n : Nat) (rest2 : List Char) : Option (Char × Nat) :=
  match rest2 with
  | b1 :: b2 :: g1 :: g2 :: g3 :: g4 :: _ =>
    if b1 == '\\' && b2 == 'u' then
      match hexVal g1, hexVal g2, hexVal g3, hexVal g4 with
      | some e1, some e2, some e3, some e4 =>
        let m := e1 * 4096 + e2 * 256 + e3 * 16 + e4
        if 56320 ≤ m && m ≤ 57343 then
          some (Char.ofNat (65536 + (n - 55296) * 1024 + (m - 56320)), 10)
        else none
      | _, _, _, _ => none
    else none
  | _ => none

/-- A `\uXXXX` escape body: four hex digits, possibly followed by a
low-surrogate partner when the digits denote a high surrogate. -/
def parseU (rest : List Char) : Option (Char × Nat) :=
  match rest with
  | h1 :: h2 :: h3 :: h4 :: rest2 =>
    match hexVal h1, hexVal h2, hexVal h3, hexVal h4 with
    | some d1, some d2, some d3, some d4 =>
      let n := d1 * 4096 + d2 * 256 + d3 * 16 + d4
      if n < 55296 || 57343 < n then some (Char.ofNat n, 4)
      else if n < 56320 then parseULow n rest2
      else none
    | _, _, _, _ => none
  | _ => none

/-- One escape sequence of a JSON string: given the character following
the backslash and the input after it, the decoded character and how many
further characters were consumed (4 for `\uXXXX`, 10 for a surrogate
pair, 0 for a named escape).  Covers exactly what `json.load`
understands.  A lone surrogate escape is rejected (Python would keep it,
but it denotes no Unicode scalar and is never produced by `json.dump`
from a `str`). -/
def parseEsc (e : Char) (rest : List Char) : Option (Char × Nat) :=
  if e == 'u' then parseU rest
  else if e == '"' then some ('"', 0)
  else if e == '\\' then some ('\\', 0)
  else if e == '/' then some ('/', 0)
  else if e == 'b' then some (Char.ofNat 8, 0)
  else if e == 'f' then some (Char.ofNat 12, 0)
  else if e == 'n' then some ('\n', 0)
  else if e == 'r' then some ('\r', 0)
  else if e == 't' then some ('\t', 0)
  else none

/-- The body of a quoted string, after the opening quote: characters up
to the closing quote, undoing the escapes `json.load` understands.
Python's strict mode rejects raw control characters. -/
def parseStrChars (cs : List Char) : Option (List Char × List Char) :=
  match cs with
  | [] => none
  | c :: rest =>
    if c == '"' then some ([], rest)
    else if c == '\\' then
      match rest with
      | [] => none
      | e :: rest0 =>
        match parseEsc e rest0 with
        | none => none
        | some (d, k) =>
          (parseStrChars (rest0.drop k)).map (fun p => (d :: p.1, p.2))
    else if c.toNat < 32 then none
    else (parseStrChars rest).map (fun p => (c :: p.1, p.2))
termination_by cs.length
decreasing_by
  · simp only [List.length_cons, List.length_drop]
    omega
  · simp

mutual

/-- One JSON value, fuel-bounded recursive descent modelling
`json.load`'s grammar on the constructs of `JVal` (numbers restricted to
integers). -/
def parseJ : Nat → List Char → Option (JVal × List Char)
  | 0, _ => none
  | f + 1, cs =>
    match skipWs cs with
    | [] => none
    | c :: rest =>
      if c == 'n' then (expectLit ['u', 'l', 'l'] rest).map (fun r => (.null, r))
      else if c == 't' then (expectLit ['r', 'u', 'e'] rest).map (fun r => (.bool true, r))
      else if c == 'f' then (expectLit ['a', 'l', 's', 'e'] rest).map (fun r => (.bool false, r))
      else if c == '"' then (parseStrChars rest).map (fun p => (.str (String.mk p.1), p.2))
      else if c == '[' then parseArrBody f rest
      else if c == lbrace then parseObjBody f rest
      else if c == '-' then
        let ds := rest.takeWhile isDigitChar
        if ds.isEmpty then none
        else some (.int (-(digitsToNat ds : ℤ)), rest.dropWhile isDigitChar)
      else if isDigitChar c then
        let ds := (c :: rest).takeWhile isDigitChar
        some (.int (digitsToNat ds : ℤ), (c :: rest).dropWhile isDigitChar)
      else none

/-- The inside of an array, after `[`. -/
def parseArrBody : Nat → List Char → Option (JVal × List Char)
  | 0, _ => none
  | f + 1, cs =>
    match skipWs cs with
    | [] => none
    | c :: rest =>
      if c == ']' then some (.arr [], rest)
      else
        match parseJ f cs with
        | none => none
        | some (v, rest1) =>
          match parseArrTail f rest1 with
          | none => none
          | some (vs, rest2) => some (.arr (v :: vs), rest2)

/-- After one array item: either `]` or `,` and more items. -/
def parseArrTail : Nat → List Char → Option (List JVal × List Char)
  | 0, _ => none
  | f + 1, cs =>
    match skipWs cs with
    | [] => none
    | c :: rest =>
      if c == ']' then some ([], rest)
      else if c == ',' then
        match parseJ f rest with
        | none => none
        | some (v, rest1) =>
          match parseArrTail f rest1 with
          | none => none
          | some (vs, rest2) => some (v :: vs, rest2)
      else none

/-- The inside of an object, after the opening brace. -/
def parseObjBody : Nat → List Char → Option (JVal × List Char)
  | 0, _ => none
  | f + 1, cs =>
    match skipWs cs with
    | [] => none
    | c :: rest =>
      if c == rbrace then some (.obj [], rest)
      else if c == '"' then
        match parseStrChars rest with
        | none => none
        | some (k, rest1) =>
          match skipWs rest1 with
          | [] => none
          | c2 :: rest2 =>
            if c2 == ':' then
              match parseJ f rest2 with
              | none => none
              | some (v, rest3) =>
                match parseObjTail f rest3 with
                | none => none
                | some (kvs, rest4) => some (.obj ((String.mk k, v) :: kvs), rest4)
            else none
      else none

/-- After one object item: either the closing brace or `,` and more
items. -/
def parseObjTail : Nat → List Char → Option (List (String × JVal) × List Char)
  | 0, _ => none
  | f + 1, cs =>
    match skipWs cs with
    | [] => none
    | c :: rest =>
      if c == rbrace then some ([], rest)
      else if c == ',' then
        match skipWs rest with
        | [] => none
        | c1 :: rest1 =>
          if c1 == '"' then
            match parseStrChars rest1 with
            | none => none
            | some (k, rest2) =>
              match skipWs rest2 with
              | [] => none
              | c2 :: rest3 =>
                if c2 == ':' then
                  match parseJ f rest3 with
                  | none => none
                  | some (v, rest4) =>
                    match parseObjTail f rest4 with
                    | none => none
                    | some (kvs, rest5) => some ((String.mk k, v) :: kvs, rest5)
                else none
          else none
      else none

end

mutual

/-- Fuel needed by `parseJ` to parse a rendered value: one unit per
parser call.  Bounded by the length of the rendered text. -/
def jweightV : JVal → Nat
  | .null => 1
  | .bool _ => 1
  | .int _ => 1
  | .str _ => 1
  | .arr xs => 2 + jweightL xs
  | .obj kvs => 2 + jweightKL kvs

/-- Fuel needed by `parseArrTail` on the remaining array items. -/
def jweightL : List JVal → Nat
  | [] => 1
  | x :: xs => 1 + jweightV x + jweightL xs

/-- Fuel needed by `parseObjTail` on the remaining object items. -/
def jweightKL : List (String × JVal) → Nat
  | [] => 1
  | (_, v) :: kvs => 1 + jweightV v + jweightKL kvs

end

/-- The input after a rendered value never begins with a digit, so the
maximal-munch number reader stops exactly at the value boundary. -/
def headNotDigit : List Char → Prop
  | [] => True
  | c :: _ => isDigitChar c = false


/-- `save_to_json(data, file_path)`: serialize the mapping with
`json.dump(data, f, indent=2)` (pretty-printed, 2-space indent),
overwriting any existing file at the path. -/
def save_to_json (data : List (String × JVal)) (file_path : String) (fs : FS) : FS :=
  (file_path, String.mk (renderJ 0 (.obj data))) :: fs

/-- `load_from_json(file_path)`: `FileNotFoundError` when the path does
not exist, `json.JSONDecodeError` (`malformedInput`) when the content
does not parse as one JSON value followed only by whitespace. -/
def load_from_json (fs : FS) (file_path : String) : Except Err JVal :=
  match fsLookup fs file_path with
  | none => .error (.notFound file_path)
  | some s =>
    match parseJ (s.data.length + 1) s.data with
    | none => .error .malformedInput
    | some (v, rest) => if (skipWs rest).isEmpty then .ok v else .error .malformedInput

/-! ## Concrete tables used in the claim theorems -/

/-- A one-column table holding an integer and a missing marker. -/
def mixedTable : Table := ⟨["a"], [0, 1], [[.int 1], [.missing]]⟩

/-- A one-column table holding one textual cell. -/
def textTable : Table := ⟨["a"], [0], [[.str "x"]]⟩

/-- A one-column table holding one integer cell. -/
def intTable : Table := ⟨["a"], [0], [[.int 1]]⟩

/-- The table of section 8 of the spec: one numeric column with the
values 10, 20, 30, 40, 50. -/
def statTable : Table :=
  ⟨["values"], [0, 1, 2, 3, 4], [[.int 10], [.int 20], [.int 30], [.int 40], [.int 50]]⟩

/-- A table with a missing value and a duplicate row. -/
def dirtyTable : Table :=
  ⟨["name", "age"], [0, 1, 2, 3],
    [[.str "A", .int 1], [.missing, .int 2], [.str "A", .int 1], [.str "B", .int 3]]⟩

/-- A small table for grouping, whose keys first appear out of sorted
order. -/
def groupTable : Table :=
  ⟨["g", "x"], [0, 1, 2], [[.str "b", .int 1], [.str "a", .int 2], [.str "b", .int 5]]⟩

/-- A two-column table whose aggregation column is textual. -/
def textGroupTable : Table :=
  ⟨["g", "x"], [0, 1], [[.str "a", .str "u"], [.str "b", .str "v"]]⟩

/-! ## Lemmas for the JSON round trip -/

theorem takeWhile_append_all {p : Char → Bool} {xs : List Char} (ys : List Char)
    (h : ∀ x ∈ xs, p x = true) :
    List.takeWhile p (xs ++ ys) = xs ++ List.takeWhile p ys := by
  induction xs with
  | nil => simp
  | cons a l ih =>
    simp only [List.cons_append, List.takeWhile_cons, h a (by simp), if_true]
    simp [ih (fun x hx => h x (by simp [hx]))]

theorem dropWhile_append_all {p : Char → Bool} {xs : List Char} (ys : List Char)
    (h : ∀ x ∈ xs, p x = true) :
    List.dropWhile p (xs ++ ys) = List.dropWhile p ys := by
  induction xs with
  | nil => simp
  | cons a l ih =>
    simp only [List.cons_append, List.dropWhile_cons, h a (by simp), if_true]
    exact ih (fun x hx => h x (by simp [hx]))

theorem takeWhile_pos {p : Char → Bool} {x : Char} (xs : List Char) (h : p x = false) :
    List.takeWhile p (x :: xs) = [] := by
  simp [List.takeWhile_cons, h]

theorem dropWhile_neg {p : Char → Bool} {x : Char} (xs : List Char) (h : p x = false) :
    List.dropWhile p (x :: xs) = x :: xs := by
  simp [List.dropWhile_cons, h]

theorem skipWs_append {ws : List Char} (cs : List Char) (h : ∀ x ∈ ws, isWsChar x = true) :
    skipWs (ws ++ cs) = skipWs cs :=
  dropWhile_append_all cs h

theorem skipWs_cons {c : Char} (cs : List Char) (h : isWsChar c = false) :
    skipWs (c :: cs) = c :: cs :=
  dropWhile_neg cs h

theorem nlind_all_ws (lvl : Nat) : ∀ x ∈ nlind lvl, isWsChar x = true := by
  intro x hx
  simp only [nlind, List.mem_cons] at hx
  rcases hx with h | h
  · simp [h, isWsChar]
  · have := List.eq_of_mem_replicate h
    simp [this, isWsChar]

theorem skipWs_nlind {lvl : Nat} (cs : List Char) :
    skipWs (nlind lvl ++ cs) = skipWs cs :=
  skipWs_append cs (nlind_all_ws lvl)

theorem toNat_ofNat_valid {n : Nat} (h : Nat.isValidChar n) : (Char.ofNat n).toNat = n := by
  unfold Char.ofNat
  rw [dif_pos h]
  rfl

theorem toNat_ofNat_small {n : Nat} (h : n < 55296) : (Char.ofNat n).toNat = n :=
  toNat_ofNat_valid (Or.inl h)

theorem natDigits_ne_nil (n : Nat) : natDigits n ≠ [] := by
  rw [natDigits]
  split <;> simp

theorem natDigits_all_digit (n : Nat) : ∀ c ∈ natDigits n, isDigitChar c = true := by
  induction n using Nat.strong_induction_on with
  | _ n ih =>
    rw [natDigits]
    split
    · intro c hc
      simp only [List.mem_singleton] at hc
      subst hc
      have h1 : (Char.ofNat (48 + n)).toNat = 48 + n := toNat_ofNat_small (by omega)
      simp only [isDigitChar, h1]
      simp
      omega
    · intro c hc
      rcases List.mem_append.mp hc with h | h
      · exact ih (n / 10) (Nat.div_lt_self (by omega) (by omega)) c h
      · simp only [List.mem_singleton] at h
        subst h
        have hm : n % 10 < 10 := Nat.mod_lt _ (by omega)
        have h1 : (Char.ofNat (48 + n % 10)).toNat = 48 + n % 10 :=
          toNat_ofNat_small (by omega)
        simp only [isDigitChar, h1]
        simp
        omega

theorem foldl_digits (n : Nat) : ∀ a : Nat,
    List.foldl (fun a c => a * 10 + digitVal c) a (natDigits n) =
      a * 10 ^ (natDigits n).length + n := by
  induction n using Nat.strong_induction_on with
  | _ n ih =>
    intro a
    rw [natDigits]
    split
    · have h1 : (Char.ofNat (48 + n)).toNat = 48 + n := toNat_ofNat_small (by omega)
      simp only [List.foldl_cons, List.foldl_nil, List.length_singleton]
      simp [digitVal, h1]
    · rw [List.foldl_append, ih (n / 10) (Nat.div_lt_self (by omega) (by omega)) a]
      simp only [List.foldl_cons, List.foldl_nil, List.length_append, List.length_singleton]
      have hd : digitVal (Char.ofNat (48 + n % 10)) = n % 10 := by
        have hm : n % 10 < 10 := Nat.mod_lt _ (by omega)
        have h1 : (Char.ofNat (48 + n % 10)).toNat = 48 + n % 10 :=
          toNat_ofNat_small (by omega)
        simp [digitVal, h1]
      rw [hd, pow_succ]
      have hmod := Nat.div_add_mod n 10
      set L := (natDigits (n / 10)).length
      ring_nf
      omega

theorem digitsToNat_natDigits (n : Nat) : digitsToNat (natDigits n) = n := by
  have := foldl_digits n 0
  simpa [digitsToNat] using this

theorem beq_false_of_toNat_ne {c d : Char} (h : c.toNat ≠ d.toNat) : (c == d) = false :=
  beq_eq_false_iff_ne.mpr fun he => h (he ▸ rfl)

theorem hexVal_hexDigitChar : ∀ d, d < 16 → hexVal (hexDigitChar d) = some d := by decide

theorem hex4_bounds (n : Nat) :
    n / 4096 % 16 < 16 ∧ n / 256 % 16 < 16 ∧ n / 16 % 16 < 16 ∧ n % 16 < 16 := by
  omega


theorem parseU_hex4 (c : Char) (hc : c.toNat < 65536) (X : List Char) :
    parseU (hex4 c.toNat ++ X) = some (c, 4) := by
  obtain ⟨b1, b2, b3, b4⟩ := hex4_bounds c.toNat
  have e1 := hexVal_hexDigitChar _ b1
  have e2 := hexVal_hexDigitChar _ b2
  have e3 := hexVal_hexDigitChar _ b3
  have e4 := hexVal_hexDigitChar _ b4
  have hdec : c.toNat / 4096 % 16 * 4096 + c.toNat / 256 % 16 * 256 +
      c.toNat / 16 % 16 * 16 + c.toNat % 16 = c.toNat := by omega
  have hval : c.toNat < 55296 ∨ (57343 < c.toNat ∧ c.toNat < 1114112) := c.valid
  simp only [hex4, List.cons_append, List.nil_append, parseU]
  rw [e1, e2, e3, e4]
  simp only [hdec]
  rw [if_pos (by simp only [Bool.or_eq_true, decide_eq_true_eq]; omega)]
  rw [Char.ofNat_toNat]

theorem parseU_surrogate (c : Char) (hc : 65536 ≤ c.toNat) (X : List Char) :
    parseU (hex4 (55296 + (c.toNat - 65536) / 1024) ++
      ('\\' :: 'u' :: (hex4 (56320 + (c.toNat - 65536) % 1024) ++ X))) = some (c, 10) := by
  set hi := 55296 + (c.toNat - 65536) / 1024 with hhi
  set lo := 56320 + (c.toNat - 65536) % 1024 with hlo
  have hval : c.toNat < 55296 ∨ (57343 < c.toNat ∧ c.toNat < 1114112) := c.valid
  have hhi2 : hi < 65536 := by omega
  have hlo2 : lo < 65536 := by omega
  obtain ⟨b1, b2, b3, b4⟩ := hex4_bounds hi
  have e1 := hexVal_hexDigitChar _ b1
  have e2 := hexVal_hexDigitChar _ b2
  have e3 := hexVal_hexDigitChar _ b3
  have e4 := hexVal_hexDigitChar _ b4
  have hdec : hi / 4096 % 16 * 4096 + hi / 256 % 16 * 256 +
      hi / 16 % 16 * 16 + hi % 16 = hi := by omega
  obtain ⟨c1, c2, c3, c4⟩ := hex4_bounds lo
  have f1 := hexVal_hexDigitChar _ c1
  have f2 := hexVal_hexDigitChar _ c2
  have f3 := hexVal_hexDigitChar _ c3
  have f4 := hexVal_hexDigitChar _ c4
  have hdec2 : lo / 4096 % 16 * 4096 + lo / 256 % 16 * 256 +
      lo / 16 % 16 * 16 + lo % 16 = lo := by omega
  simp only [hex4, List.cons_append, List.nil_append]
  rw [parseU]
  rw [e1, e2, e3, e4]
  simp only [hdec]
  rw [if_neg (by simp only [Bool.or_eq_true, decide_eq_true_eq]; omega)]
  rw [if_pos (by omega)]
  rw [parseULow]
  rw [if_pos (by simp)]
  rw [f1, f2, f3, f4]
  simp only [hdec2]
  rw [if_pos (by simp only [Bool.and_eq_true, decide_eq_true_eq]; omega)]
  have hcomb : 65536 + (hi - 55296) * 1024 + (lo - 56320) = c.toNat := by omega
  rw [hcomb, Char.ofNat_toNat]

theorem drop4_hex4 (n : Nat) (R : List Char) : (hex4 n ++ R).drop 4 = R := by
  simp only [hex4, List.cons_append, List.nil_append]
  rfl

theorem drop10_hex4 (n m : Nat) (R : List Char) :
    (hex4 n ++ ('\\' :: 'u' :: (hex4 m ++ R))).drop 10 = R := by
  simp only [hex4, List.cons_append, List.nil_append]
  rfl

theorem parseStrChars_escapeList :
    ∀ cs rest, parseStrChars (escapeList cs ++ ('"' :: rest)) = some (cs, rest) := by
  intro cs
  induction cs with
  | nil =>
    intro rest
    show parseStrChars ('"' :: rest) = some ([], rest)
    rw [parseStrChars.eq_def]
    simp
  | cons c cs ih =>
    intro rest
    have hstep : escapeList (c :: cs) = escapeChar c ++ escapeList cs := rfl
    rw [hstep, List.append_assoc]
    rw [escapeChar]
    split_ifs with h1 h2 h3 h4 h5 h6 h7 h8 h9
    · rw [beq_iff_eq] at h1
      subst h1
      simp [parseStrChars, parseEsc, ih]
    · rw [beq_iff_eq] at h2
      subst h2
      simp [parseStrChars, parseEsc, ih]
    · rw [beq_iff_eq] at h3
      subst h3
      simp [parseStrChars, parseEsc, ih]
    · rw [beq_iff_eq] at h4
      subst h4
      simp [parseStrChars, parseEsc, ih]
    · rw [beq_iff_eq] at h5
      subst h5
      simp [parseStrChars, parseEsc, ih]
    · have hc : c = Char.ofNat 8 := by
        have h6' : c.toNat = 8 := by simpa using h6
        rw [← h6', Char.ofNat_toNat]
      rw [hc]
      simp [parseStrChars, parseEsc, ih]
    · have hc : c = Char.ofNat 12 := by
        have h7' : c.toNat = 12 := by simpa using h7
        rw [← h7', Char.ofNat_toNat]
      rw [hc]
      simp [parseStrChars, parseEsc, ih]
    · -- \uXXXX for a code point below 0x10000
      simp only [List.cons_append]
      rw [parseStrChars]
      simp only [show (('\\' : Char) == '"') = false from by decide,
        show (('\\' : Char) == '\\') = true from by decide, Bool.false_eq_true,
        if_false, if_true]
      rw [parseEsc, if_pos (by decide)]
      rw [parseU_hex4 c h9]
      dsimp only
      rw [drop4_hex4, ih]
      rfl
    · -- surrogate pair for a code point at or above 0x10000
      simp only [List.cons_append, List.append_assoc, List.nil_append]
      rw [parseStrChars]
      simp only [show (('\\' : Char) == '"') = false from by decide,
        show (('\\' : Char) == '\\') = true from by decide, Bool.false_eq_true,
        if_false, if_true]
      rw [parseEsc, if_pos (by decide)]
      rw [parseU_surrogate c (by omega) (escapeList cs ++ ('"' :: rest))]
      dsimp only
      rw [drop10_hex4, ih]
      rfl
    · -- a printable character is written as itself
      simp only [List.cons_append, List.nil_append]
      rw [parseStrChars.eq_def]
      dsimp only
      rw [if_neg h1, if_neg h2]
      rw [if_neg (by simp only [Bool.or_eq_true, decide_eq_true_eq] at h8; omega)]
      rw [ih]
      rfl

theorem jweightV_pos (j : JVal) : 1 ≤ jweightV j := by
  cases j <;> rw [jweightV] <;> omega

theorem beq_false_of_digit (d x : Char) (hd : isDigitChar d = true)
    (hx : x.toNat < 48 ∨ 57 < x.toNat) : (d == x) = false := by
  apply beq_false_of_toNat_ne
  simp only [isDigitChar, Bool.and_eq_true, decide_eq_true_eq] at hd
  omega

theorem ws_false_of_digit (d : Char) (hd : isDigitChar d = true) : isWsChar d = false := by
  unfold isWsChar
  rw [beq_false_of_digit d ' ' hd (by decide), beq_false_of_digit d '\t' hd (by decide),
    beq_false_of_digit d '\n' hd (by decide), beq_false_of_digit d '\r' hd (by decide)]
  rfl

theorem natDigits_cons (n : Nat) :
    ∃ d ds, natDigits n = d :: ds ∧ isDigitChar d = true := by
  rcases hne : natDigits n with _ | ⟨d, ds⟩
  · exact absurd hne (natDigits_ne_nil n)
  · exact ⟨d, ds, rfl, natDigits_all_digit n d (by rw [hne]; simp)⟩

theorem takeWhile_digits_append (n : Nat) (rest : List Char) (h : headNotDigit rest) :
    (natDigits n ++ rest).takeWhile isDigitChar = natDigits n ∧
      (natDigits n ++ rest).dropWhile isDigitChar = rest := by
  constructor
  · rw [takeWhile_append_all rest (natDigits_all_digit n)]
    rcases rest with _ | ⟨c, cs⟩
    · simp
    · rw [takeWhile_pos cs h]
      simp
  · rw [dropWhile_append_all rest (natDigits_all_digit n)]
    rcases rest with _ | ⟨c, cs⟩
    · simp
    · exact dropWhile_neg cs h

theorem renderJ_head (lvl : Nat) (j : JVal) :
    ∃ c tl, renderJ lvl j = c :: tl ∧ isWsChar c = false ∧ (c == ']') = false := by
  cases j with
  | null => exact ⟨'n', _, rfl, by decide, by decide⟩
  | bool b =>
    cases b
    · exact ⟨'f', _, rfl, by decide, by decide⟩
    · exact ⟨'t', _, rfl, by decide, by decide⟩
  | int n =>
    show ∃ c tl, renderInt n = c :: tl ∧ _
    rw [renderInt]
    split_ifs with hneg
    · exact ⟨'-', _, rfl, by decide, by decide⟩
    · obtain ⟨d, ds, hd, hdig⟩ := natDigits_cons n.natAbs
      exact ⟨d, ds, hd, ws_false_of_digit d hdig, beq_false_of_digit d ']' hdig (by decide)⟩
  | str s => exact ⟨'"', _, rfl, by decide, by decide⟩
  | arr xs =>
    cases xs
    · exact ⟨'[', _, rfl, by decide, by decide⟩
    · exact ⟨'[', _, rfl, by decide, by decide⟩
  | obj kvs =>
    cases kvs with
    | nil => exact ⟨lbrace, _, rfl, by decide, by decide⟩
    | cons kv kvs => exact ⟨lbrace, _, by rw [renderJ], by decide, by decide⟩

theorem headNotDigit_arrTail (lvl lvl2 : Nat) (xs : List JVal) (X : List Char) :
    headNotDigit (renderArrTail lvl xs ++ (nlind lvl2 ++ X)) := by
  cases xs
  · simp [renderArrTail, nlind, headNotDigit, isDigitChar]
  · simp [renderArrTail, headNotDigit, isDigitChar]

theorem headNotDigit_objTail (lvl lvl2 : Nat) (kvs : List (String × JVal)) (X : List Char) :
    headNotDigit (renderObjTail lvl kvs ++ (nlind lvl2 ++ X)) := by
  cases kvs with
  | nil => simp [renderObjTail, nlind, headNotDigit, isDigitChar]
  | cons kv kvs =>
    obtain ⟨k, v⟩ := kv
    simp [renderObjTail, headNotDigit, isDigitChar]

theorem parse_render_aux : ∀ k : Nat,
    (∀ j : JVal, sizeOf j ≤ k → ∀ f lvl (ws rest : List Char), jweightV j ≤ f →
      (∀ x ∈ ws, isWsChar x = true) → headNotDigit rest →
      parseJ f (ws ++ (renderJ lvl j ++ rest)) = some (j, rest)) ∧
    (∀ xs : List JVal, sizeOf xs ≤ k → ∀ f lvl lvl2 (rest : List Char), jweightL xs ≤ f →
      parseArrTail f (renderArrTail lvl xs ++ (nlind lvl2 ++ (']' :: rest))) = some (xs, rest)) ∧
    (∀ kvs : List (String × JVal), sizeOf kvs ≤ k → ∀ f lvl lvl2 (rest : List Char),
      jweightKL kvs ≤ f →
      parseObjTail f (renderObjTail lvl kvs ++ (nlind lvl2 ++ (rbrace :: rest))) =
        some (kvs, rest)) := by
  intro k
  induction k using Nat.strong_induction_on with
  | _ k IH =>
    refine ⟨?_, ?_, ?_⟩
    · intro j hjk f lvl ws rest hjf hws hrest
      have hpos : 1 ≤ jweightV j := jweightV_pos j
      cases f with
      | zero => omega
      | succ f =>
      cases j with
      | null =>
        rw [show renderJ lvl JVal.null = ['n', 'u', 'l', 'l'] from by rw [renderJ]]
        rw [parseJ]
        rw [show skipWs (ws ++ (['n', 'u', 'l', 'l'] ++ rest)) =
          'n' :: ('u' :: 'l' :: 'l' :: rest) from by
            rw [skipWs_append _ hws]
            simp only [List.cons_append, List.nil_append]
            exact skipWs_cons _ (by decide)]
        simp [expectLit, List.isPrefixOf]
      | bool b =>
        cases b
        · rw [show renderJ lvl (JVal.bool false) = ['f', 'a', 'l', 's', 'e'] from by rw [renderJ]]
          rw [parseJ]
          rw [show skipWs (ws ++ (['f', 'a', 'l', 's', 'e'] ++ rest)) =
            'f' :: ('a' :: 'l' :: 's' :: 'e' :: rest) from by
              rw [skipWs_append _ hws]
              simp only [List.cons_append, List.nil_append]
              exact skipWs_cons _ (by decide)]
          simp [expectLit, List.isPrefixOf]
        · rw [show renderJ lvl (JVal.bool true) = ['t', 'r', 'u', 'e'] from by rw [renderJ]]
          rw [parseJ]
          rw [show skipWs (ws ++ (['t', 'r', 'u', 'e'] ++ rest)) =
            't' :: ('r' :: 'u' :: 'e' :: rest) from by
              rw [skipWs_append _ hws]
              simp only [List.cons_append, List.nil_append]
              exact skipWs_cons _ (by decide)]
          simp [expectLit, List.isPrefixOf]
      | int n =>
        rw [show renderJ lvl (JVal.int n) = renderInt n from by rw [renderJ]]
        rw [renderInt]
        obtain ⟨ht, hdw⟩ := takeWhile_digits_append n.natAbs rest hrest
        obtain ⟨d, ds, hnd, hdig⟩ := natDigits_cons n.natAbs
        split_ifs with hneg
        · rw [parseJ]
          rw [show skipWs (ws ++ (('-' :: natDigits n.natAbs) ++ rest)) =
            '-' :: (natDigits n.natAbs ++ rest) from by
              rw [skipWs_append _ hws]
              simp only [List.cons_append]
              exact skipWs_cons _ (by decide)]
          simp only [show (('-' : Char) == 'n') = false from by decide,
            show (('-' : Char) == 't') = false from by decide,
            show (('-' : Char) == 'f') = false from by decide,
            show (('-' : Char) == '"') = false from by decide,
            show (('-' : Char) == '[') = false from by decide,
            show (('-' : Char) == lbrace) = false from by decide,
            show (('-' : Char) == '-') = true from by decide,
            Bool.false_eq_true, if_false, if_true]
          rw [ht, hdw, hnd]
          simp only [List.isEmpty_cons, Bool.false_eq_true, if_false]
          rw [← hnd, digitsToNat_natDigits]
          have : -((n.natAbs : Int)) = n := by omega
          rw [this]
        · rw [parseJ]
          rw [show skipWs (ws ++ (natDigits n.natAbs ++ rest)) =
            d :: (ds ++ rest) from by
              rw [skipWs_append _ hws, hnd]
              simp only [List.cons_append]
              exact skipWs_cons _ (ws_false_of_digit d hdig)]
          simp only [beq_false_of_digit d 'n' hdig (by decide),
            beq_false_of_digit d 't' hdig (by decide),
            beq_false_of_digit d 'f' hdig (by decide),
            beq_false_of_digit d '"' hdig (by decide),
            beq_false_of_digit d '[' hdig (by decide),
            beq_false_of_digit d lbrace hdig (by decide),
            beq_false_of_digit d '-' hdig (by decide),
            Bool.false_eq_true, if_false, hdig, if_true]
          rw [show d :: (ds ++ rest) = natDigits n.natAbs ++ rest from by rw [hnd]; rfl]
          rw [ht, hdw, digitsToNat_natDigits]
          have : ((n.natAbs : Int)) = n := by omega
          rw [this]
      | str s =>
        obtain ⟨sd⟩ := s
        rw [show renderJ lvl (JVal.str ⟨sd⟩) = '"' :: (escapeList sd ++ ['"']) from by
          rw [renderJ]; rfl]
        rw [parseJ]
        rw [show skipWs (ws ++ (('"' :: (escapeList sd ++ ['"'])) ++ rest)) =
          '"' :: ((escapeList sd ++ ['"']) ++ rest) from by
            rw [skipWs_append _ hws]
            simp only [List.cons_append]
            exact skipWs_cons _ (by decide)]
        simp only [show (('"' : Char) == 'n') = false from by decide,
          show (('"' : Char) == 't') = false from by decide,
          show (('"' : Char) == 'f') = false from by decide,
          show (('"' : Char) == '"') = true from by decide,
          Bool.false_eq_true, if_false, if_true]
        rw [show (escapeList sd ++ ['"']) ++ rest = escapeList sd ++ ('"' :: rest) from by
          simp]
        rw [parseStrChars_escapeList]
        rfl
      | arr xs =>
        cases xs with
        | nil =>
          rw [show renderJ lvl (JVal.arr []) = ['[', ']'] from by rw [renderJ]]
          rw [parseJ]
          rw [show skipWs (ws ++ (['[', ']'] ++ rest)) = '[' :: (']' :: rest) from by
            rw [skipWs_append _ hws]
            simp only [List.cons_append, List.nil_append]
            exact skipWs_cons _ (by decide)]
          simp only [show (('[' : Char) == 'n') = false from by decide,
            show (('[' : Char) == 't') = false from by decide,
            show (('[' : Char) == 'f') = false from by decide,
            show (('[' : Char) == '"') = false from by decide,
            show (('[' : Char) == '[') = true from by decide,
            Bool.false_eq_true, if_false, if_true]
          have hf1 : 1 ≤ f := by
            have : jweightV (JVal.arr ([] : List JVal)) = 3 := by
              rw [jweightV, jweightL]
            omega
          cases f with
          | zero => omega
          | succ f =>
          rw [parseArrBody]
          rw [skipWs_cons _ (by decide)]
          simp
        | cons x xs =>
          have hsx : sizeOf x < k := by
            have : sizeOf (JVal.arr (x :: xs)) = 1 + (1 + sizeOf x + sizeOf xs) := by simp
            have hx1 : 1 ≤ sizeOf xs := by cases xs <;> simp_arith
            omega
          have hsxs : sizeOf xs < k := by
            have : sizeOf (JVal.arr (x :: xs)) = 1 + (1 + sizeOf x + sizeOf xs) := by simp
            have hx1 : 1 ≤ sizeOf x := by cases x <;> simp_arith
            omega
          rw [show renderJ lvl (JVal.arr (x :: xs)) =
            '[' :: (nlind (lvl + 1) ++ renderJ (lvl + 1) x ++ renderArrTail (lvl + 1) xs ++
              nlind lvl ++ [']']) from by rw [renderJ]]
          rw [parseJ]
          rw [show skipWs (ws ++ (('[' :: (nlind (lvl + 1) ++ renderJ (lvl + 1) x ++
              renderArrTail (lvl + 1) xs ++ nlind lvl ++ [']'])) ++ rest)) =
            '[' :: ((nlind (lvl + 1) ++ renderJ (lvl + 1) x ++ renderArrTail (lvl + 1) xs ++
              nlind lvl ++ [']']) ++ rest) from by
              rw [skipWs_append _ hws]
              simp only [List.cons_append]
              exact skipWs_cons _ (by decide)]
          simp only [show (('[' : Char) == 'n') = false from by decide,
            show (('[' : Char) == 't') = false from by decide,
            show (('[' : Char) == 'f') = false from by decide,
            show (('[' : Char) == '"') = false from by decide,
            show (('[' : Char) == '[') = true from by decide,
            Bool.false_eq_true, if_false, if_true]
          have hw1 : jweightV (JVal.arr (x :: xs)) = 2 + (1 + jweightV x + jweightL xs) := by
            rw [jweightV, jweightL]
          have hwx : 1 ≤ jweightV x := jweightV_pos x
          cases f with
          | zero => omega
          | succ f =>
          -- normalize the tail into nested-append form
          rw [show (nlind (lvl + 1) ++ renderJ (lvl + 1) x ++ renderArrTail (lvl + 1) xs ++
              nlind lvl ++ [']']) ++ rest =
            nlind (lvl + 1) ++ (renderJ (lvl + 1) x ++ (renderArrTail (lvl + 1) xs ++
              (nlind lvl ++ (']' :: rest)))) from by simp]
          rw [parseArrBody]
          obtain ⟨hc, htl, hhead, hws2, hne2⟩ := renderJ_head (lvl + 1) x
          rw [show skipWs (nlind (lvl + 1) ++ (renderJ (lvl + 1) x ++ (renderArrTail (lvl + 1) xs ++
              (nlind lvl ++ (']' :: rest))))) = hc :: (htl ++ (renderArrTail (lvl + 1) xs ++
              (nlind lvl ++ (']' :: rest)))) from by
              rw [skipWs_nlind, hhead]
              simp only [List.cons_append]
              exact skipWs_cons _ hws2]
          simp only [hne2, Bool.false_eq_true, if_false]
          rw [(IH (sizeOf x) hsx).1 x le_rfl f (lvl + 1) (nlind (lvl + 1)) _ (by omega)
            (nlind_all_ws _) (headNotDigit_arrTail (lvl + 1) lvl xs _)]
          dsimp only
          rw [(IH (sizeOf xs) hsxs).2.1 xs le_rfl f (lvl + 1) lvl rest (by omega)]

      | obj kvs =>
        cases kvs with
        | nil =>
          rw [show renderJ lvl (JVal.obj []) = [lbrace, rbrace] from by rw [renderJ]]
          rw [parseJ]
          rw [show skipWs (ws ++ ([lbrace, rbrace] ++ rest)) = lbrace :: (rbrace :: rest) from by
            rw [skipWs_append _ hws]
            simp only [List.cons_append, List.nil_append]
            exact skipWs_cons _ (by decide)]
          simp only [show ((lbrace : Char) == 'n') = false from by decide,
            show ((lbrace : Char) == 't') = false from by decide,
            show ((lbrace : Char) == 'f') = false from by decide,
            show ((lbrace : Char) == '"') = false from by decide,
            show ((lbrace : Char) == '[') = false from by decide,
            show ((lbrace : Char) == lbrace) = true from by decide,
            Bool.false_eq_true, if_false, if_true]
          have hf1 : 1 ≤ f := by
            have : jweightV (JVal.obj ([] : List (String × JVal))) = 3 := by
              rw [jweightV, jweightKL]
            omega
          cases f with
          | zero => omega
          | succ f =>
          rw [parseObjBody]
          rw [skipWs_cons _ (by decide)]
          simp
        | cons kv kvs =>
          obtain ⟨ks, v⟩ := kv
          obtain ⟨kd⟩ := ks
          have hsv : sizeOf v < k := by
            have h1 : sizeOf (JVal.obj ((⟨kd⟩, v) :: kvs)) =
              1 + (1 + (1 + sizeOf (String.mk kd) + sizeOf v) + sizeOf kvs) := by simp
            have hx1 : 1 ≤ sizeOf kvs := by cases kvs <;> simp_arith
            have hx2 : 1 ≤ sizeOf (String.mk kd) := by simp_arith
            omega
          have hskvs : sizeOf kvs < k := by
            have h1 : sizeOf (JVal.obj ((⟨kd⟩, v) :: kvs)) =
              1 + (1 + (1 + sizeOf (String.mk kd) + sizeOf v) + sizeOf kvs) := by simp
            have hx1 : 1 ≤ sizeOf v := by cases v <;> simp_arith
            have hx2 : 1 ≤ sizeOf (String.mk kd) := by simp_arith
            omega
          rw [show renderJ lvl (JVal.obj ((⟨kd⟩, v) :: kvs)) =
            lbrace :: (nlind (lvl + 1) ++ renderStr ⟨kd⟩ ++ [':', ' '] ++ renderJ (lvl + 1) v ++
              renderObjTail (lvl + 1) kvs ++ nlind lvl ++ [rbrace]) from by rw [renderJ]]
          rw [parseJ]
          rw [show skipWs (ws ++ ((lbrace :: (nlind (lvl + 1) ++ renderStr ⟨kd⟩ ++ [':', ' '] ++
              renderJ (lvl + 1) v ++ renderObjTail (lvl + 1) kvs ++ nlind lvl ++ [rbrace])) ++
              rest)) =
            lbrace :: ((nlind (lvl + 1) ++ renderStr ⟨kd⟩ ++ [':', ' '] ++ renderJ (lvl + 1) v ++
              renderObjTail (lvl + 1) kvs ++ nlind lvl ++ [rbrace]) ++ rest) from by
              rw [skipWs_append _ hws]
              simp only [List.cons_append]
              exact skipWs_cons _ (by decide)]
          simp only [show ((lbrace : Char) == 'n') = false from by decide,
            show ((lbrace : Char) == 't') = false from by decide,
            show ((lbrace : Char) == 'f') = false from by decide,
            show ((lbrace : Char) == '"') = false from by decide,
            show ((lbrace : Char) == '[') = false from by decide,
            show ((lbrace : Char) == lbrace) = true from by decide,
            Bool.false_eq_true, if_false, if_true]
          have hw1 : jweightV (JVal.obj ((⟨kd⟩, v) :: kvs)) =
            2 + (1 + jweightV v + jweightKL kvs) := by
            rw [jweightV, jweightKL]
          have hwv : 1 ≤ jweightV v := jweightV_pos v
          cases f with
          | zero => omega
          | succ f =>
          rw [show (nlind (lvl + 1) ++ renderStr ⟨kd⟩ ++ [':', ' '] ++ renderJ (lvl + 1) v ++
              renderObjTail (lvl + 1) kvs ++ nlind lvl ++ [rbrace]) ++ rest =
            nlind (lvl + 1) ++ ('"' :: (escapeList kd ++ ('"' :: (':' :: (' ' ::
              (renderJ (lvl + 1) v ++ (renderObjTail (lvl + 1) kvs ++
                (nlind lvl ++ (rbrace :: rest))))))))) from by
              simp [renderStr]]
          rw [parseObjBody]
          rw [show skipWs (nlind (lvl + 1) ++ ('"' :: (escapeList kd ++ ('"' :: (':' :: (' ' ::
              (renderJ (lvl + 1) v ++ (renderObjTail (lvl + 1) kvs ++
                (nlind lvl ++ (rbrace :: rest)))))))))) =
            '"' :: (escapeList kd ++ ('"' :: (':' :: (' ' ::
              (renderJ (lvl + 1) v ++ (renderObjTail (lvl + 1) kvs ++
                (nlind lvl ++ (rbrace :: rest)))))))) from by
              rw [skipWs_nlind]
              exact skipWs_cons _ (by decide)]
          simp only [show (('"' : Char) == rbrace) = false from by decide,
            show (('"' : Char) == '"') = true from by decide,
            Bool.false_eq_true, if_false, if_true]
          rw [parseStrChars_escapeList]
          dsimp only
          rw [show skipWs (':' :: (' ' :: (renderJ (lvl + 1) v ++ (renderObjTail (lvl + 1) kvs ++
              (nlind lvl ++ (rbrace :: rest)))))) =
            ':' :: (' ' :: (renderJ (lvl + 1) v ++ (renderObjTail (lvl + 1) kvs ++
              (nlind lvl ++ (rbrace :: rest))))) from skipWs_cons _ (by decide)]
          simp only [show ((':' : Char) == ':') = true from by decide, if_true]
          rw [show ' ' :: (renderJ (lvl + 1) v ++ (renderObjTail (lvl + 1) kvs ++
              (nlind lvl ++ (rbrace :: rest)))) =
            [' '] ++ (renderJ (lvl + 1) v ++ (renderObjTail (lvl + 1) kvs ++
              (nlind lvl ++ (rbrace :: rest)))) from rfl]
          rw [(IH (sizeOf v) hsv).1 v le_rfl f (lvl + 1) [' '] _ (by omega) (by decide)
            (headNotDigit_objTail (lvl + 1) lvl kvs _)]
          dsimp only
          rw [(IH (sizeOf kvs) hskvs).2.2 kvs le_rfl f (lvl + 1) lvl rest (by omega)]
    · intro xs hxk f lvl lvl2 rest hxf
      cases xs with
      | nil =>
        have h1 : jweightL ([] : List JVal) = 1 := by rw [jweightL]
        cases f with
        | zero => omega
        | succ f =>
        rw [show renderArrTail lvl ([] : List JVal) = [] from by rw [renderArrTail]]
        rw [List.nil_append]
        rw [parseArrTail]
        rw [show skipWs (nlind lvl2 ++ (']' :: rest)) = ']' :: rest from by
          rw [skipWs_nlind]; exact skipWs_cons _ (by decide)]
        simp
      | cons x xs =>
        have hx1 : 1 ≤ sizeOf x := by cases x <;> simp_arith
        have hxs1 : 1 ≤ sizeOf xs := by cases xs <;> simp_arith
        have hsz : sizeOf (x :: xs) = 1 + sizeOf x + sizeOf xs := by simp
        have hsx : sizeOf x < k := by omega
        have hsxs : sizeOf xs < k := by omega
        have hwl : jweightL (x :: xs) = 1 + jweightV x + jweightL xs := by rw [jweightL]
        have hwx : 1 ≤ jweightV x := jweightV_pos x
        cases f with
        | zero => omega
        | succ f =>
        rw [show renderArrTail lvl (x :: xs) =
          ',' :: (nlind lvl ++ renderJ lvl x ++ renderArrTail lvl xs) from by
            rw [renderArrTail]]
        rw [show (',' :: (nlind lvl ++ renderJ lvl x ++ renderArrTail lvl xs)) ++
            (nlind lvl2 ++ (']' :: rest)) =
          ',' :: (nlind lvl ++ (renderJ lvl x ++ (renderArrTail lvl xs ++
            (nlind lvl2 ++ (']' :: rest))))) from by simp]
        rw [parseArrTail]
        rw [show skipWs (',' :: (nlind lvl ++ (renderJ lvl x ++ (renderArrTail lvl xs ++
            (nlind lvl2 ++ (']' :: rest)))))) =
          ',' :: (nlind lvl ++ (renderJ lvl x ++ (renderArrTail lvl xs ++
            (nlind lvl2 ++ (']' :: rest))))) from skipWs_cons _ (by decide)]
        simp only [show ((',' : Char) == ']') = false from by decide,
          show ((',' : Char) == ',') = true from by decide,
          Bool.false_eq_true, if_false, if_true]
        rw [(IH (sizeOf x) hsx).1 x le_rfl f lvl (nlind lvl) _ (by omega)
          (nlind_all_ws _) (headNotDigit_arrTail lvl lvl2 xs _)]
        dsimp only
        rw [(IH (sizeOf xs) hsxs).2.1 xs le_rfl f lvl lvl2 rest (by omega)]
    · intro kvs hkk f lvl lvl2 rest hkf
      cases kvs with
      | nil =>
        have h1 : jweightKL ([] : List (String × JVal)) = 1 := by rw [jweightKL]
        cases f with
        | zero => omega
        | succ f =>
        rw [show renderObjTail lvl ([] : List (String × JVal)) = [] from by rw [renderObjTail]]
        rw [List.nil_append]
        rw [parseObjTail]
        rw [show skipWs (nlind lvl2 ++ (rbrace :: rest)) = rbrace :: rest from by
          rw [skipWs_nlind]; exact skipWs_cons _ (by decide)]
        simp
      | cons kv kvs =>
        obtain ⟨ks, v⟩ := kv
        obtain ⟨kd⟩ := ks
        have hv1 : 1 ≤ sizeOf v := by cases v <;> simp_arith
        have hkvs1 : 1 ≤ sizeOf kvs := by cases kvs <;> simp_arith
        have hk1 : 1 ≤ sizeOf (String.mk kd) := by simp_arith
        have hsz : sizeOf ((String.mk kd, v) :: kvs) =
          1 + (1 + sizeOf (String.mk kd) + sizeOf v) + sizeOf kvs := by simp
        have hsv : sizeOf v < k := by omega
        have hskvs : sizeOf kvs < k := by omega
        have hwl : jweightKL ((String.mk kd, v) :: kvs) =
          1 + jweightV v + jweightKL kvs := by rw [jweightKL]
        have hwv : 1 ≤ jweightV v := jweightV_pos v
        cases f with
        | zero => omega
        | succ f =>
        rw [show renderObjTail lvl ((⟨kd⟩, v) :: kvs) =
          ',' :: (nlind lvl ++ renderStr ⟨kd⟩ ++ [':', ' '] ++ renderJ lvl v ++
            renderObjTail lvl kvs) from by rw [renderObjTail]]
        rw [show (',' :: (nlind lvl ++ renderStr ⟨kd⟩ ++ [':', ' '] ++ renderJ lvl v ++
            renderObjTail lvl kvs)) ++ (nlind lvl2 ++ (rbrace :: rest)) =
          ',' :: (nlind lvl ++ ('"' :: (escapeList kd ++ ('"' :: (':' :: (' ' ::
            (renderJ lvl v ++ (renderObjTail lvl kvs ++
              (nlind lvl2 ++ (rbrace :: rest)))))))))) from by simp [renderStr]]
        rw [parseObjTail]
        rw [show skipWs (',' :: (nlind lvl ++ ('"' :: (escapeList kd ++ ('"' :: (':' :: (' ' ::
            (renderJ lvl v ++ (renderObjTail lvl kvs ++
              (nlind lvl2 ++ (rbrace :: rest)))))))))) ) =
          ',' :: (nlind lvl ++ ('"' :: (escapeList kd ++ ('"' :: (':' :: (' ' ::
            (renderJ lvl v ++ (renderObjTail lvl kvs ++
              (nlind lvl2 ++ (rbrace :: rest))))))))))
          from skipWs_cons _ (by decide)]
        simp only [show ((',' : Char) == rbrace) = false from by decide,
          show ((',' : Char) == ',') = true from by decide,
          Bool.false_eq_true, if_false, if_true]
        rw [show skipWs (nlind lvl ++ ('"' :: (escapeList kd ++ ('"' :: (':' :: (' ' ::
            (renderJ lvl v ++ (renderObjTail lvl kvs ++
              (nlind lvl2 ++ (rbrace :: rest)))))))))) =
          '"' :: (escapeList kd ++ ('"' :: (':' :: (' ' ::
            (renderJ lvl v ++ (renderObjTail lvl kvs ++
              (nlind lvl2 ++ (rbrace :: rest)))))))) from by
            rw [skipWs_nlind]; exact skipWs_cons _ (by decide)]
        simp only [show (('"' : Char) == '"') = true from by decide, if_true]
        rw [parseStrChars_escapeList]
        dsimp only
        rw [show skipWs (':' :: (' ' :: (renderJ lvl v ++ (renderObjTail lvl kvs ++
            (nlind lvl2 ++ (rbrace :: rest)))))) =
          ':' :: (' ' :: (renderJ lvl v ++ (renderObjTail lvl kvs ++
            (nlind lvl2 ++ (rbrace :: rest))))) from skipWs_cons _ (by decide)]
        simp only [show ((':' : Char) == ':') = true from by decide, if_true]
        rw [show ' ' :: (renderJ lvl v ++ (renderObjTail lvl kvs ++
            (nlind lvl2 ++ (rbrace :: rest)))) =
          [' '] ++ (renderJ lvl v ++ (renderObjTail lvl kvs ++
            (nlind lvl2 ++ (rbrace :: rest)))) from rfl]
        rw [(IH (sizeOf v) hsv).1 v le_rfl f lvl [' '] _ (by omega) (by decide)
          (headNotDigit_objTail lvl lvl2 kvs _)]
        dsimp only
        rw [(IH (sizeOf kvs) hskvs).2.2 kvs le_rfl f lvl lvl2 rest (by omega)]

theorem jweight_le_render : ∀ k : Nat,
    (∀ j : JVal, sizeOf j ≤ k → ∀ lvl, jweightV j ≤ (renderJ lvl j).length + 1) ∧
    (∀ xs : List JVal, sizeOf xs ≤ k → ∀ lvl,
      jweightL xs ≤ (renderArrTail lvl xs).length + 1) ∧
    (∀ kvs : List (String × JVal), sizeOf kvs ≤ k → ∀ lvl,
      jweightKL kvs ≤ (renderObjTail lvl kvs).length + 1) := by
  intro k
  induction k using Nat.strong_induction_on with
  | _ k IH =>
    refine ⟨?_, ?_, ?_⟩
    · intro j hjk lvl
      cases j with
      | null => rw [jweightV]; omega
      | bool b => rw [jweightV]; omega
      | int n => rw [jweightV]; omega
      | str s => rw [jweightV]; omega
      | arr xs =>
        cases xs with
        | nil =>
          rw [show renderJ lvl (JVal.arr []) = ['[', ']'] from by rw [renderJ]]
          rw [jweightV, jweightL]
          simp
        | cons x xs =>
          have hsx : sizeOf x < k := by
            have : sizeOf (JVal.arr (x :: xs)) = 1 + (1 + sizeOf x + sizeOf xs) := by simp
            have h1 : 1 ≤ sizeOf xs := by cases xs <;> simp_arith
            omega
          have hsxs : sizeOf xs < k := by
            have : sizeOf (JVal.arr (x :: xs)) = 1 + (1 + sizeOf x + sizeOf xs) := by simp
            have h1 : 1 ≤ sizeOf x := by cases x <;> simp_arith
            omega
          have ih1 := (IH (sizeOf x) hsx).1 x le_rfl (lvl + 1)
          have ih2 := (IH (sizeOf xs) hsxs).2.1 xs le_rfl (lvl + 1)
          rw [show renderJ lvl (JVal.arr (x :: xs)) =
            '[' :: (nlind (lvl + 1) ++ renderJ (lvl + 1) x ++ renderArrTail (lvl + 1) xs ++
              nlind lvl ++ [']']) from by rw [renderJ]]
          rw [jweightV, jweightL]
          simp only [List.length_cons, List.length_append, nlind, List.length_replicate,
            List.length_singleton]
          omega
      | obj kvs =>
        cases kvs with
        | nil =>
          rw [show renderJ lvl (JVal.obj []) = [lbrace, rbrace] from by rw [renderJ]]
          rw [jweightV, jweightKL]
          simp
        | cons kv kvs =>
          obtain ⟨ks, v⟩ := kv
          have hsv : sizeOf v < k := by
            have : sizeOf (JVal.obj ((ks, v) :: kvs)) =
              1 + (1 + (1 + sizeOf ks + sizeOf v) + sizeOf kvs) := by simp
            have h1 : 1 ≤ sizeOf kvs := by cases kvs <;> simp_arith
            have h2 : 1 ≤ sizeOf ks := by cases ks; simp_arith
            omega
          have hskvs : sizeOf kvs < k := by
            have : sizeOf (JVal.obj ((ks, v) :: kvs)) =
              1 + (1 + (1 + sizeOf ks + sizeOf v) + sizeOf kvs) := by simp
            have h1 : 1 ≤ sizeOf v := by cases v <;> simp_arith
            have h2 : 1 ≤ sizeOf ks := by cases ks; simp_arith
            omega
          have ih1 := (IH (sizeOf v) hsv).1 v le_rfl (lvl + 1)
          have ih2 := (IH (sizeOf kvs) hskvs).2.2 kvs le_rfl (lvl + 1)
          rw [show renderJ lvl (JVal.obj ((ks, v) :: kvs)) =
            lbrace :: (nlind (lvl + 1) ++ renderStr ks ++ [':', ' '] ++ renderJ (lvl + 1) v ++
              renderObjTail (lvl + 1) kvs ++ nlind lvl ++ [rbrace]) from by
                obtain ⟨kd⟩ := ks
                rw [renderJ]]
          rw [jweightV, jweightKL]
          simp only [List.length_cons, List.length_append, nlind, List.length_replicate,
            List.length_singleton]
          omega
    · intro xs hxk lvl
      cases xs with
      | nil =>
        rw [show renderArrTail lvl ([] : List JVal) = [] from by rw [renderArrTail]]
        rw [jweightL]
        simp
      | cons x xs =>
        have hsx : sizeOf x < k := by
          have : sizeOf (x :: xs) = 1 + sizeOf x + sizeOf xs := by simp
          have h1 : 1 ≤ sizeOf xs := by cases xs <;> simp_arith
          omega
        have hsxs : sizeOf xs < k := by
          have : sizeOf (x :: xs) = 1 + sizeOf x + sizeOf xs := by simp
          have h1 : 1 ≤ sizeOf x := by cases x <;> simp_arith
          omega
        have ih1 := (IH (sizeOf x) hsx).1 x le_rfl lvl
        have ih2 := (IH (sizeOf xs) hsxs).2.1 xs le_rfl lvl
        rw [show renderArrTail lvl (x :: xs) =
          ',' :: (nlind lvl ++ renderJ lvl x ++ renderArrTail lvl xs) from by
            rw [renderArrTail]]
        rw [jweightL]
        simp only [List.length_cons, List.length_append, nlind, List.length_replicate]
        omega
    · intro kvs hkk lvl
      cases kvs with
      | nil =>
        rw [show renderObjTail lvl ([] : List (String × JVal)) = [] from by rw [renderObjTail]]
        rw [jweightKL]
        simp
      | cons kv kvs =>
        obtain ⟨ks, v⟩ := kv
        have hsv : sizeOf v < k := by
          have : sizeOf ((ks, v) :: kvs) = 1 + (1 + sizeOf ks + sizeOf v) + sizeOf kvs := by
            simp
          have h1 : 1 ≤ sizeOf kvs := by cases kvs <;> simp_arith
          have h2 : 1 ≤ sizeOf ks := by cases ks; simp_arith
          omega
        have hskvs : sizeOf kvs < k := by
          have : sizeOf ((ks, v) :: kvs) = 1 + (1 + sizeOf ks + sizeOf v) + sizeOf kvs := by
            simp
          have h1 : 1 ≤ sizeOf v := by cases v <;> simp_arith
          have h2 : 1 ≤ sizeOf ks := by cases ks; simp_arith
          omega
        have ih1 := (IH (sizeOf v) hsv).1 v le_rfl lvl
        have ih2 := (IH (sizeOf kvs) hskvs).2.2 kvs le_rfl lvl
        rw [show renderObjTail lvl ((ks, v) :: kvs) =
          ',' :: (nlind lvl ++ renderStr ks ++ [':', ' '] ++ renderJ lvl v ++
            renderObjTail lvl kvs) from by
              obtain ⟨kd⟩ := ks
              rw [renderObjTail]]
        rw [jweightKL]
        simp only [List.length_cons, List.length_append, nlind, List.length_replicate]
        omega

theorem parseJ_render_top (j : JVal) :
    parseJ ((renderJ 0 j).length + 1) (renderJ 0 j) = some (j, []) := by
  have hw : jweightV j ≤ (renderJ 0 j).length + 1 := (jweight_le_render (sizeOf j)).1 j le_rfl 0
  have h1 := (parse_render_aux (sizeOf j)).1 j le_rfl ((renderJ 0 j).length + 1) 0 [] [] hw
    (by simp) trivial
  simpa using h1

/-! ## The claims -/

/-- Claim C9: for every plain mapping, writing it with `save_to_json`
and reading the same path back with `load_from_json` returns a mapping
equal to the one written (write-then-read round-trip). -/
theorem save_load_round_trip (data : List (String × JVal)) (file_path : String) (fs : FS) :
    load_from_json (save_to_json data file_path fs) file_path = .ok (.obj data) := by
  unfold save_to_json load_from_json
  rw [show fsLookup ((file_path, String.mk (renderJ 0 (.obj data))) :: fs) file_path =
    some (String.mk (renderJ 0 (.obj data))) from by
      unfold fsLookup
      rw [List.find?_cons_of_pos _ (by simp)]
      rfl]
  dsimp only
  rw [parseJ_render_top]
  simp [skipWs]

/-- Claim C1 (amended): `load_csv_data` fails with `NotFound` on a
nonexistent path; it fails with `EmptySource` exactly when the existing
file's content has no non-blank line at all (pandas raises
`EmptyDataError` only for a completely empty file); a file holding a
header row and no data rows loads successfully as a table with the
header's columns and zero rows. -/
theorem load_csv_error_cases (fs : FS) (path : String) :
    (fsLookup fs path = none → load_csv_data fs path = .error (.notFound path)) ∧
    (∀ content, fsLookup fs path = some content →
      ((load_csv_data fs path = .error .emptySource) ↔
        ((splitOnChar '\n' content.data).filter (fun l => !(l.isEmpty))) = []) ∧
      (∀ header, ((splitOnChar '\n' content.data).filter (fun l => !(l.isEmpty))) = [header] →
        load_csv_data fs path = .ok ⟨(splitOnChar ',' header).map String.mk, [], []⟩)) := by
  constructor
  · intro h
    unfold load_csv_data
    rw [h]
  · intro content h
    unfold load_csv_data
    rw [h]
    dsimp only
    constructor
    · cases hs : (splitOnChar '\n' content.data).filter (fun l => !(l.isEmpty)) with
      | nil => simp
      | cons a l => simp
    · intro header hh
      rw [hh]
      rfl

/-- Claim C1 (counterexample): a file whose content is one header row
and no data rows loads successfully as an empty table — it does not
fail with `EmptySource` as the claim asserts. -/
theorem load_csv_header_only_loads :
    load_csv_data [("data.csv", "a,b\n")] "data.csv" = .ok ⟨["a", "b"], [], []⟩ ∧
    load_csv_data [("data.csv", "a,b\n")] "data.csv" ≠ .error .emptySource := by
  constructor
  · decide
  · decide

/-- Claim C1 (witness): the amended theorem applied to a completely
empty file, which is the one shape `EmptySource` really covers. -/
theorem load_csv_error_cases_witness :
    fsLookup [("d.csv", "")] "d.csv" = some "" ∧
    load_csv_data [("d.csv", "")] "d.csv" = .error .emptySource := by
  refine ⟨by decide, ?_⟩
  exact ((load_csv_error_cases [("d.csv", "")] "d.csv").2 "" (by decide)).1.mpr (by decide)

/-- The dtype of a column is numeric exactly when the column has no
textual cell and is nonempty. -/
theorem isNumericDtype_dtypeOf (cells : List Value) :
    isNumericDtype (dtypeOf cells) = true ↔
      (cells.any Value.isStr = false ∧ cells ≠ []) := by
  unfold dtypeOf
  by_cases h1 : cells.any Value.isStr = true
  · rw [if_pos h1]
    simp [h1, show isNumericDtype "object" = false from by decide]
  · have h1' : cells.any Value.isStr = false := by simpa using h1
    rw [if_neg h1]
    by_cases h2 : cells.any Value.isFloatOrMissing = true
    · rw [if_pos h2]
      have hne : cells ≠ [] := by
        rintro rfl
        simp at h2
      simp [h1', hne, show isNumericDtype "float64" = true from by decide]
    · rw [if_neg h2]
      by_cases h3 : cells.isEmpty = true
      · rw [if_pos h3]
        have : cells = [] := by simpa using h3
        simp [this, show isNumericDtype "object" = false from by decide]
      · rw [if_neg h3]
        have hne : cells ≠ [] := by simpa using h3
        simp [h1', hne, show isNumericDtype "int64" = true from by decide]

/-- Claim C2 (amended): `calculate_statistics` fails with
`UnknownColumn` when the column is absent; when present it fails with
`NotNumeric` iff the column holds a textual value or holds no values at
all (its dtype is then not numeric), and succeeds as soon as every cell
is numeric or missing with at least one cell — `NaN` cells are
tolerated, not only fully-numeric columns. -/
theorem calculate_statistics_spec (t : Table) (c : String) :
    (t.colIdx c = none → calculate_statistics t c = .error (.unknownColumn c)) ∧
    (∀ j, t.colIdx c = some j →
      ((calculate_statistics t c = .error (.notNumeric c)) ↔
        ((t.colCells j).any Value.isStr = true ∨ t.colCells j = [])) ∧
      (((t.colCells j).any Value.isStr = false ∧ t.colCells j ≠ []) →
        (calculate_statistics t c).isOk = true)) := by
  constructor
  · intro h
    unfold calculate_statistics
    rw [h]
  · intro j hj
    unfold calculate_statistics
    rw [hj]
    dsimp only
    by_cases hn : isNumericDtype (dtypeOf (t.colCells j)) = true
    · rw [if_neg (by simp [hn])]
      obtain ⟨ha, hne⟩ := (isNumericDtype_dtypeOf _).mp hn
      refine ⟨⟨fun h => absurd h (by simp), fun h => ?_⟩, fun _ => rfl⟩
      rcases h with h | h
      · rw [ha] at h
        exact absurd h (by simp)
      · exact absurd h hne
    · have hn' : isNumericDtype (dtypeOf (t.colCells j)) = false := by simpa using hn
      rw [if_pos (by simp [hn'])]
      refine ⟨⟨fun _ => ?_, fun _ => rfl⟩, fun ⟨h1, h2⟩ => ?_⟩
      · by_contra hcon
        push_neg at hcon
        obtain ⟨h1, h2⟩ := hcon
        have := (isNumericDtype_dtypeOf (t.colCells j)).mpr ⟨by simpa using h1, h2⟩
        rw [this] at hn'
        exact absurd hn' (by simp)
      · exact absurd ((isNumericDtype_dtypeOf (t.colCells j)).mpr ⟨h1, h2⟩) hn

/-- Claim C2 (counterexample): a column holding an integer and a
missing marker contains a value that is not numeric, yet
`calculate_statistics` succeeds on it (the column's dtype is `float64`,
since `NaN` is a float). -/
theorem calculate_statistics_missing_value_ok :
    (calculate_statistics mixedTable "a").isOk = true ∧
    (mixedTable.colCells 0).all Value.isNumericValue = false := by
  constructor
  · decide
  · decide

/-- Claim C2 (witness): the amended theorem applied to a table with a
textual column, which really fails with `NotNumeric`. -/
theorem calculate_statistics_spec_witness :
    textTable.colIdx "a" = some 0 ∧
    calculate_statistics textTable "a" = .error (.notNumeric "a") :=
  ⟨by decide,
    ((calculate_statistics_spec textTable "a").2 0 (by decide)).1.mpr (by decide)⟩

/-- One step of `validate_data_types` agrees with checking the head
pair and recursing. -/
theorem validate_step (t : Table) (c e : String) (rest : List (String × String)) :
    validate_data_types t ((c, e) :: rest) =
      (pairOk t (c, e) && validate_data_types t rest) := by
  rw [validate_data_types]
  unfold pairOk
  cases hcol : t.colIdx c with
  | none => simp
  | some j =>
    dsimp only
    by_cases he1 : (e == "numeric") = true
    · have he : e = "numeric" := by simpa using he1
      subst he
      by_cases hnum : isNumericDtype (dtypeOf (t.colCells j)) = true
      · rw [if_neg (by simp [hnum])]
        rw [if_neg (by simp [show ("numeric" == "string") = false from by decide])]
        rw [if_neg (by simp)]
        rw [if_pos he1, hnum]
        simp
      · have hnum' : isNumericDtype (dtypeOf (t.colCells j)) = false := by simpa using hnum
        rw [if_pos (by simp [hnum'])]
        rw [if_pos he1, hnum']
        simp
    · have he1' : (e == "numeric") = false := by simpa using he1
      rw [if_neg (by simp [he1'])]
      by_cases he2 : (e == "string") = true
      · have he : e = "string" := by simpa using he2
        subst he
        by_cases hobj : (dtypeOf (t.colCells j) == "object") = true
        · rw [if_neg (by simp [hobj])]
          rw [if_neg (by simp [show (("string" : String) == "string") = true from by decide])]
          rw [if_neg he1, if_pos he2, hobj]
          simp
        · have hobj' : (dtypeOf (t.colCells j) == "object") = false := by simpa using hobj
          rw [if_pos (by simp [he2, hobj'])]
          rw [if_neg he1, if_pos he2, hobj']
          simp
      · have he2' : (e == "string") = false := by simpa using he2
        rw [if_neg (by simp [he2'])]
        by_cases hsub : strContains (dtypeOf (t.colCells j)) e = true
        · rw [if_neg (by simp [hsub])]
          rw [if_neg he1, if_neg he2, hsub]
          simp
        · have hsub' : strContains (dtypeOf (t.colCells j)) e = false := by simpa using hsub
          rw [if_pos (by simp [hsub', he1', he2'])]
          rw [if_neg he1, if_neg he2, hsub']
          simp

/-- Claim C3 (amended): `validate_data_types` returns `true` iff every
expectation pair passes, where a pair with an absent column fails,
`numeric` passes iff the column's dtype is numeric, `string` passes iff
the column's dtype tag is exactly `object` (which holds as soon as some
value is textual, not only when all are), and any other expected type
passes iff it occurs as a substring of the dtype tag (Python's
`expected_type not in actual_type`), not only when it equals it;
evaluation short-circuits to `false` at the first failing pair. -/
theorem validate_data_types_iff (t : Table) (exps : List (String × String)) :
    validate_data_types t exps = true ↔ exps.all (pairOk t) = true := by
  induction exps with
  | nil => simp [validate_data_types]
  | cons p rest ih =>
    obtain ⟨c, e⟩ := p
    rw [validate_step]
    simp [List.all_cons, Bool.and_eq_true, ih]

/-- Claim C3 (counterexample): with expectation `int` on an integer
column whose exact dtype tag is `int64`, the claim as stated demands
`false` (the expectation differs from the exact tag), but the code
returns `true` because `'int' in 'int64'` holds (substring test). -/
theorem validate_data_types_substring :
    validate_data_types intTable [("a", "int")] = true ∧
    ("int" == dtypeOf (intTable.colCells 0)) = false := by
  constructor
  · decide
  · decide

/-- Claim C7: over the column `[10, 20, 30, 40, 50]`,
`calculate_statistics` yields mean 30, median 30, min 10, max 50,
count 5, and its standard deviation follows the sample convention:
the squared std is `Σ (xᵢ − mean)² / (n − 1) = 250` (the population
convention would give 200). -/
theorem calculate_statistics_concrete :
    calculate_statistics statTable "values" =
      .ok ⟨30, 30, 250, 10, 50, 5⟩ ∧
    (250 : ℚ) =
      ((10 - 30) ^ 2 + (20 - 30) ^ 2 + (30 - 30) ^ 2 + (40 - 30) ^ 2 + (50 - 30) ^ 2) /
        (5 - 1) := by
  constructor
  · unfold calculate_statistics
    rw [show statTable.colIdx "values" = some 0 from by decide]
    dsimp only
    rw [if_neg (by decide)]
    rw [show numericVals (statTable.colCells 0) = [10, 20, 30, 40, 50] from by
      show numericVals [Value.int 10, Value.int 20, Value.int 30, Value.int 40, Value.int 50] = _
      norm_num [numericVals, Value.toRat, List.filterMap]]
    rw [show ratMean [(10 : ℚ), 20, 30, 40, 50] = 30 from by
      norm_num [ratMean, List.sum_cons, List.sum_nil]]
    rw [show ratMedian [(10 : ℚ), 20, 30, 40, 50] = 30 from by
      norm_num [ratMedian, List.insertionSort, List.orderedInsert, List.getD]]
    rw [show sampleVariance [(10 : ℚ), 20, 30, 40, 50] = 250 from by
      norm_num [sampleVariance, ratMean, List.sum_cons, List.sum_nil]]
    rw [show ratMin [(10 : ℚ), 20, 30, 40, 50] = 10 from by
      norm_num [ratMin, List.foldl, min_def]]
    rw [show ratMax [(10 : ℚ), 20, 30, 40, 50] = 50 from by
      norm_num [ratMax, List.foldl, max_def]]
    rfl
  · norm_num

/-! ## Lemmas about cleaning and filtering -/

theorem filter_zip_snd {α β : Type} (p : β → Bool) :
    ∀ (l1 : List α) (l2 : List β), l1.length = l2.length →
      ((l1.zip l2).filter (fun q => p q.2)).map Prod.snd = l2.filter p := by
  intro l1
  induction l1 with
  | nil =>
    intro l2 h
    cases l2 with
    | nil => rfl
    | cons b bs => simp at h
  | cons a l1 ih =>
    intro l2 h
    cases l2 with
    | nil => simp at h
    | cons b bs =>
      rw [List.zip_cons_cons, List.filter_cons, List.filter_cons]
      cases hp : p b
      · simp only [Bool.false_eq_true, if_false]
        exact ih bs (by simpa using h)
      · simp only [if_true, List.map_cons]
        rw [ih bs (by simpa using h)]

theorem map_snd_dedupRowsAux {α β : Type} [DecidableEq β] :
    ∀ (ps : List (α × β)) (seen : List β),
      (dedupRowsAux seen ps).map Prod.snd = dedupRowsFirst seen (ps.map Prod.snd) := by
  intro ps
  induction ps with
  | nil => intro seen; rfl
  | cons p ps ih =>
    intro seen
    rw [dedupRowsAux, List.map_cons, dedupRowsFirst]
    by_cases h : p.2 ∈ seen
    · rw [if_pos h, if_pos h, ih]
    · rw [if_neg h, if_neg h, List.map_cons, ih]

theorem mem_dedupRowsFirst {β : Type} [DecidableEq β] (a : β) :
    ∀ (l seen : List β), a ∈ dedupRowsFirst seen l ↔ (a ∈ l ∧ a ∉ seen) := by
  intro l
  induction l with
  | nil => intro seen; simp [dedupRowsFirst]
  | cons r rs ih =>
    intro seen
    rw [dedupRowsFirst]
    by_cases h : r ∈ seen
    · rw [if_pos h, ih]
      constructor
      · rintro ⟨h1, h2⟩
        exact ⟨List.mem_cons_of_mem r h1, h2⟩
      · rintro ⟨h1, h2⟩
        rcases List.mem_cons.mp h1 with rfl | h1
        · exact absurd h h2
        · exact ⟨h1, h2⟩
    · rw [if_neg h]
      constructor
      · intro hm
        rcases List.mem_cons.mp hm with rfl | hm
        · exact ⟨List.mem_cons_self _ _, h⟩
        · obtain ⟨h1, h2⟩ := (ih _).mp hm
          refine ⟨List.mem_cons_of_mem r h1, fun hc => h2 (List.mem_cons_of_mem r hc)⟩
      · rintro ⟨h1, h2⟩
        rcases List.mem_cons.mp h1 with rfl | h1
        · exact List.mem_cons_self _ _
        · by_cases har : a = r
          · subst har
            exact List.mem_cons_self _ _
          · exact List.mem_cons_of_mem r ((ih _).mpr
              ⟨h1, by simp [List.mem_cons, har, h2]⟩)

theorem dedupRowsFirst_sublist {β : Type} [DecidableEq β] :
    ∀ (l seen : List β), (dedupRowsFirst seen l).Sublist l := by
  intro l
  induction l with
  | nil => intro seen; simp [dedupRowsFirst]
  | cons r rs ih =>
    intro seen
    rw [dedupRowsFirst]
    by_cases h : r ∈ seen
    · rw [if_pos h]
      exact (ih seen).cons r
    · rw [if_neg h]
      exact (ih _).cons₂ r

theorem nodup_dedupRowsFirst {β : Type} [DecidableEq β] :
    ∀ (l seen : List β), (dedupRowsFirst seen l).Nodup := by
  intro l
  induction l with
  | nil => intro seen; simp [dedupRowsFirst]
  | cons r rs ih =>
    intro seen
    rw [dedupRowsFirst]
    by_cases h : r ∈ seen
    · rw [if_pos h]
      exact ih seen
    · rw [if_neg h]
      refine List.Nodup.cons ?_ (ih _)
      intro hc
      have := (mem_dedupRowsFirst r rs _).mp hc
      exact this.2 (List.mem_cons_self _ _)

theorem dedupRowsFirst_eq_self {β : Type} [DecidableEq β] :
    ∀ (l seen : List β), l.Nodup → (∀ a ∈ l, a ∉ seen) → dedupRowsFirst seen l = l := by
  intro l
  induction l with
  | nil => intro seen _ _; rfl
  | cons r rs ih =>
    intro seen hnd hs
    rw [dedupRowsFirst, if_neg (hs r (List.mem_cons_self _ _))]
    rw [ih (r :: seen) (List.Nodup.of_cons hnd)]
    intro a ha
    intro hc
    rcases List.mem_cons.mp hc with rfl | hc
    · exact (List.nodup_cons.mp hnd).1 ha
    · exact hs a (List.mem_cons_of_mem r ha) hc

theorem dedupRowsAux_eq_self {α β : Type} [DecidableEq β] :
    ∀ (ps : List (α × β)) (seen : List β), (ps.map Prod.snd).Nodup →
      (∀ p ∈ ps, p.2 ∉ seen) → dedupRowsAux seen ps = ps := by
  intro ps
  induction ps with
  | nil => intro seen _ _; rfl
  | cons p ps ih =>
    intro seen hnd hs
    rw [List.map_cons] at hnd
    rw [dedupRowsAux, if_neg (hs p (List.mem_cons_self _ _))]
    rw [ih (p.2 :: seen) (List.Nodup.of_cons hnd)]
    intro q hq
    intro hc
    rcases List.mem_cons.mp hc with he | hc
    · exact (List.nodup_cons.mp hnd).1 (he ▸ List.mem_map_of_mem Prod.snd hq)
    · exact hs q (List.mem_cons_of_mem p hq) hc

theorem zip_fst_snd {α β : Type} : ∀ l : List (α × β), (l.map Prod.fst).zip (l.map Prod.snd) = l := by
  intro l
  induction l with
  | nil => rfl
  | cons p ps ih => simp [ih]

theorem clean_data_rows (t : Table) (h : t.index.length = t.rows.length) :
    (clean_data t).rows =
      dedupRowsFirst [] (t.rows.filter (fun r => !(rowHasMissing r))) := by
  unfold clean_data Table.reset_index Table.drop_duplicates Table.dropna
  dsimp only
  rw [zip_fst_snd, map_snd_dedupRowsAux,
    filter_zip_snd (fun r => !(rowHasMissing r)) _ _ h]

theorem clean_rows_nodup (t : Table) : (clean_data t).rows.Nodup := by
  unfold clean_data Table.reset_index Table.drop_duplicates Table.dropna
  dsimp only
  rw [zip_fst_snd, map_snd_dedupRowsAux]
  exact nodup_dedupRowsFirst _ _

theorem clean_rows_no_missing (t : Table) :
    ∀ r ∈ (clean_data t).rows, rowHasMissing r = false := by
  unfold clean_data Table.reset_index Table.drop_duplicates Table.dropna
  dsimp only
  rw [zip_fst_snd, map_snd_dedupRowsAux]
  intro r hr
  have h1 := ((mem_dedupRowsFirst r _ _).mp hr).1
  obtain ⟨p, hp, rfl⟩ := List.mem_map.mp h1
  have := List.of_mem_filter hp
  simpa using this

/-- Claim C4: `clean_data` never fails; it keeps exactly the rows
without a missing marker, then drops every row equal to an earlier kept
row (first occurrence wins, relative order preserved — the output rows
are a sublist of the input rows), then renumbers the index `0..n-1`
contiguously; the output has no missing marker and no two identical
rows, and an empty input yields an empty output with the same
columns. -/
theorem clean_data_spec (t : Table) (h : t.index.length = t.rows.length) :
    (clean_data t).names = t.names ∧
    (clean_data t).rows =
      dedupRowsFirst [] (t.rows.filter (fun r => !(rowHasMissing r))) ∧
    (clean_data t).index = List.range (clean_data t).rows.length ∧
    (∀ r ∈ (clean_data t).rows, rowHasMissing r = false) ∧
    (clean_data t).rows.Nodup ∧
    (clean_data t).rows.Sublist t.rows ∧
    (t.rows = [] → clean_data t = ⟨t.names, [], []⟩) := by
  refine ⟨rfl, clean_data_rows t h, rfl, clean_rows_no_missing t, clean_rows_nodup t, ?_, ?_⟩
  · rw [clean_data_rows t h]
    exact (dedupRowsFirst_sublist _ _).trans (List.filter_sublist _)
  · intro hrows
    have h0 : (clean_data t).rows = [] := by
      rw [clean_data_rows t h, hrows]
      rfl
    have h2 : (clean_data t).index = List.range (clean_data t).rows.length := rfl
    have h2' : (clean_data t).index = [] := by
      rw [h2, h0]
      rfl
    calc clean_data t
        = ⟨(clean_data t).names, (clean_data t).index, (clean_data t).rows⟩ := rfl
      _ = ⟨t.names, [], []⟩ := by
          rw [h0, h2']
          rfl

/-- Claim C4 (witness): the cleaning pipeline on a concrete dirty
table. -/
theorem clean_data_spec_witness :
    dirtyTable.index.length = dirtyTable.rows.length ∧
    (clean_data dirtyTable).rows =
      dedupRowsFirst [] (dirtyTable.rows.filter (fun r => !(rowHasMissing r))) :=
  ⟨by decide, (clean_data_spec dirtyTable (by decide)).2.1⟩

theorem clean_data_of_clean (ns : List String) (R : List (List Value))
    (hmiss : ∀ r ∈ R, rowHasMissing r = false) (hnodup : R.Nodup) :
    clean_data ⟨ns, List.range R.length, R⟩ = ⟨ns, List.range R.length, R⟩ := by
  have hall : ∀ p ∈ (List.range R.length).zip R, (!(rowHasMissing p.2)) = true := by
    intro p hp
    have := (List.of_mem_zip hp).2
    simp [hmiss p.2 this]
  have hle : (List.range R.length).length ≤ R.length := by simp
  have hge : R.length ≤ (List.range R.length).length := by simp
  have hnd : (((List.range R.length).zip R).map Prod.snd).Nodup := by
    rw [List.map_snd_zip _ _ hge]
    exact hnodup
  have hseen : ∀ p ∈ (List.range R.length).zip R, p.2 ∉ ([] : List (List Value)) := by
    intro p _ hc
    exact absurd hc (List.not_mem_nil _)
  unfold clean_data Table.dropna Table.drop_duplicates Table.reset_index
  dsimp only
  rw [List.filter_eq_self.mpr hall]
  rw [List.map_fst_zip _ _ hle, List.map_snd_zip _ _ hge]
  rw [dedupRowsAux_eq_self _ _ hnd hseen]
  simp only [show List.map Prod.snd ((List.range R.length).zip R) = R from
    List.map_snd_zip _ _ hge]

/-- Claim C5: `clean_data` is idempotent — cleaning an already cleaned
table changes nothing. -/
theorem clean_data_idempotent (t : Table) : clean_data (clean_data t) = clean_data t :=
  clean_data_of_clean (clean_data t).names (clean_data t).rows
    (clean_rows_no_missing t) (clean_rows_nodup t)

/-- Claim C6: `filter_by_column` fails with `UnknownColumn` when the
column is absent; otherwise it returns exactly the subsequence of rows
whose value in the column equals the given value (under the elementwise
equality `valEq` the code computes: numeric cells by value, textual
cells by text, `NaN` equal to nothing), preserving the rows' relative
order and reindexed from `0`; every result row has the column equal to
the value, and the result's row count is at most the input's — zero
matches yield a valid empty table, not an error. -/
theorem filter_by_column_spec (t : Table) (c : String) (v : Value)
    (h : t.index.length = t.rows.length) :
    (t.colIdx c = none → filter_by_column t c v = .error (.unknownColumn c)) ∧
    (∀ j, t.colIdx c = some j →
      filter_by_column t c v =
        .ok ⟨t.names,
          List.range (t.rows.filter (fun r => valEq (r.getD j Value.missing) v)).length,
          t.rows.filter (fun r => valEq (r.getD j Value.missing) v)⟩ ∧
      (∀ r ∈ t.rows.filter (fun r => valEq (r.getD j Value.missing) v),
        valEq (r.getD j Value.missing) v = true) ∧
      (t.rows.filter (fun r => valEq (r.getD j Value.missing) v)).Sublist t.rows ∧
      (t.rows.filter (fun r => valEq (r.getD j Value.missing) v)).length ≤
        t.rows.length) := by
  constructor
  · intro hc
    unfold filter_by_column
    rw [hc]
  · intro j hj
    refine ⟨?_, fun r hr => (List.mem_filter.mp hr).2, List.filter_sublist _,
      List.length_filter_le _ _⟩
    unfold filter_by_column
    rw [hj]
    dsimp only
    rw [filter_zip_snd (fun r => valEq (r.getD j Value.missing) v) _ _ h]
    rw [show (((t.index.zip t.rows).filter
        (fun p => valEq (p.2.getD j Value.missing) v)).length) =
      (t.rows.filter (fun r => valEq (r.getD j Value.missing) v)).length from by
        rw [← filter_zip_snd (fun r => valEq (r.getD j Value.missing) v) _ _ h,
          List.length_map]]

/-- Claim C6 (witness): filtering a concrete table on a matching
value. -/
theorem filter_by_column_spec_witness :
    dirtyTable.index.length = dirtyTable.rows.length ∧
    dirtyTable.colIdx "name" = some 0 ∧
    filter_by_column dirtyTable "name" (.str "A") =
      .ok ⟨dirtyTable.names,
        List.range ((dirtyTable.rows.filter
          (fun r => valEq (r.getD 0 Value.missing) (.str "A"))).length),
        dirtyTable.rows.filter (fun r => valEq (r.getD 0 Value.missing) (.str "A"))⟩ :=
  ⟨by decide, by decide,
    ((filter_by_column_spec dirtyTable "name" (.str "A") (by decide)).2 0 (by decide)).1⟩

/-! ## Lemmas about grouping -/

theorem except_isOk_ok {ε α : Type} (a : α) : (Except.ok a : Except ε α).isOk = true := rfl

theorem except_isOk_error {ε α : Type} (e : ε) :
    (Except.error e : Except ε α).isOk = false := rfl

theorem any_not_isStr_eq (l : List Value) :
    (l.any fun v => !(v.isStr)) = !(l.all Value.isStr) := by
  induction l with
  | nil => rfl
  | cons x xs ih => simp [List.any_cons, List.all_cons, ih, Bool.not_and]

theorem aggregateOp_isOk_char (o : String) (cells : List Value)
    (hop : validOperations.contains o = true) :
    ((aggregateOp o cells).isOk = false ↔
      ((cells.filter (fun v => !(v.isMissing))).any Value.isStr = true ∧
       (o = "mean" ∨ (o ≠ "count" ∧
         (cells.filter (fun v => !(v.isMissing))).any (fun v => !(v.isStr)) = true)))) := by
  have hop' : o = "mean" ∨ o = "sum" ∨ o = "count" ∨ o = "min" ∨ o = "max" := by
    simpa [validOperations] using hop
  rcases hop' with rfl | rfl | rfl | rfl | rfl
  · unfold aggregateOp
    rw [if_neg (by decide), if_pos (by decide)]
    rcases Bool.eq_false_or_eq_true ((cells.filter (fun v => !(v.isMissing))).any Value.isStr)
        with hs | hs
    · rw [if_pos hs]
      simp only [hs, except_isOk_error]
      simp
    · rcases Bool.eq_false_or_eq_true ((cells.filter (fun v => !(v.isMissing))).isEmpty)
          with he | he
      · rw [if_neg (by rw [hs]; decide), if_pos he]
        simp only [hs, except_isOk_ok]
        simp
      · rw [if_neg (by rw [hs]; decide), if_neg (by rw [he]; decide)]
        simp only [hs, except_isOk_ok]
        simp
  · unfold aggregateOp
    rw [if_neg (by decide), if_neg (by decide), if_pos (by decide)]
    rcases Bool.eq_false_or_eq_true ((cells.filter (fun v => !(v.isMissing))).any Value.isStr)
        with hs | hs
    · rcases Bool.eq_false_or_eq_true ((cells.filter (fun v => !(v.isMissing))).all Value.isStr)
          with hall | hall
      · rw [if_pos hs, if_pos hall]
        simp only [hs, any_not_isStr_eq, hall, except_isOk_ok]
        simp
      · rw [if_pos hs, if_neg (by rw [hall]; decide)]
        simp only [hs, any_not_isStr_eq, hall, except_isOk_error]
        simp
    · rw [if_neg (by rw [hs]; decide)]
      simp only [hs, except_isOk_ok]
      simp
  · unfold aggregateOp
    rw [if_pos (by decide)]
    simp only [except_isOk_ok]
    simp
  · unfold aggregateOp
    rw [if_neg (by decide), if_neg (by decide), if_neg (by decide), if_pos (by decide)]
    rcases Bool.eq_false_or_eq_true ((cells.filter (fun v => !(v.isMissing))).any Value.isStr)
        with hs | hs
    · rcases Bool.eq_false_or_eq_true ((cells.filter (fun v => !(v.isMissing))).all Value.isStr)
          with hall | hall
      · rw [if_pos hs, if_pos hall]
        simp only [hs, any_not_isStr_eq, hall, except_isOk_ok]
        simp
      · rw [if_pos hs, if_neg (by rw [hall]; decide)]
        simp only [hs, any_not_isStr_eq, hall, except_isOk_error]
        simp
    · rcases Bool.eq_false_or_eq_true ((cells.filter (fun v => !(v.isMissing))).isEmpty)
          with he | he
      · rw [if_neg (by rw [hs]; decide), if_pos he]
        simp only [hs, except_isOk_ok]
        simp
      · rw [if_neg (by rw [hs]; decide), if_neg (by rw [he]; decide)]
        simp only [hs, except_isOk_ok]
        simp
  · unfold aggregateOp
    rw [if_neg (by decide), if_neg (by decide), if_neg (by decide), if_neg (by decide),
      if_pos (by decide)]
    rcases Bool.eq_false_or_eq_true ((cells.filter (fun v => !(v.isMissing))).any Value.isStr)
        with hs | hs
    · rcases Bool.eq_false_or_eq_true ((cells.filter (fun v => !(v.isMissing))).all Value.isStr)
          with hall | hall
      · rw [if_pos hs, if_pos hall]
        simp only [hs, any_not_isStr_eq, hall, except_isOk_ok]
        simp
      · rw [if_pos hs, if_neg (by rw [hall]; decide)]
        simp only [hs, any_not_isStr_eq, hall, except_isOk_error]
        simp
    · rcases Bool.eq_false_or_eq_true ((cells.filter (fun v => !(v.isMissing))).isEmpty)
          with he | he
      · rw [if_neg (by rw [hs]; decide), if_pos he]
        simp only [hs, except_isOk_ok]
        simp
      · rw [if_neg (by rw [hs]; decide), if_neg (by rw [he]; decide)]
        simp only [hs, except_isOk_ok]
        simp

theorem aggRows_isOk (o : String) (jg ja : Nat) (rs : List (List Value)) :
    ∀ ks : List Value, (aggRows o jg ja rs ks).isOk = true ↔
      ∀ k ∈ ks, (aggregateOp o ((rs.filter (fun r => r.getD jg Value.missing == k)).map
        (fun r => r.getD ja Value.missing))).isOk = true := by
  intro ks
  induction ks with
  | nil => simp [aggRows, except_isOk_ok]
  | cons k ks ih =>
    rw [aggRows]
    cases hv : aggregateOp o ((rs.filter (fun r => r.getD jg Value.missing == k)).map
        (fun r => r.getD ja Value.missing)) with
    | error e =>
      dsimp only
      constructor
      · intro h
        exact absurd h (by simp [except_isOk_error])
      · intro h
        have hk := h k (List.mem_cons_self k ks)
        rw [hv] at hk
        exact absurd hk (by simp [except_isOk_error])
    | ok v =>
      dsimp only
      cases hrec : aggRows o jg ja rs ks with
      | error e =>
        rw [hrec] at ih
        dsimp only
        constructor
        · intro h
          exact absurd h (by simp [except_isOk_error])
        · intro h
          have := ih.mpr (fun w hw => h w (List.mem_cons_of_mem k hw))
          exact absurd this (by simp [except_isOk_error])
      | ok out =>
        rw [hrec] at ih
        dsimp only
        constructor
        · intro _ w hw
          rcases List.mem_cons.mp hw with rfl | hw
          · rw [hv]
            exact except_isOk_ok v
          · exact ih.mp rfl w hw
        · intro _
          rfl

theorem aggRows_ok_keys (o : String) (jg ja : Nat) (rs : List (List Value)) :
    ∀ ks out, aggRows o jg ja rs ks = .ok out →
      out.map (fun r => r.getD 0 Value.missing) = ks ∧ ∀ r ∈ out, r.length = 2 := by
  intro ks
  induction ks with
  | nil =>
    intro out h
    rw [aggRows] at h
    have h' := Except.ok.inj h
    refine ⟨by rw [← h']; rfl, ?_⟩
    rw [← h']
    intro r hr
    cases hr
  | cons k ks ih =>
    intro out h
    rw [aggRows] at h
    cases hv : aggregateOp o ((rs.filter (fun r => r.getD jg Value.missing == k)).map
        (fun r => r.getD ja Value.missing)) with
    | error e =>
      rw [hv] at h
      exact absurd h (by simp)
    | ok v =>
      rw [hv] at h
      dsimp only at h
      cases hrec : aggRows o jg ja rs ks with
      | error e =>
        rw [hrec] at h
        exact absurd h (by simp)
      | ok out' =>
        rw [hrec] at h
        dsimp only at h
        have h' := Except.ok.inj h
        obtain ⟨ih1, ih2⟩ := ih out' hrec
        refine ⟨?_, ?_⟩
        · rw [← h', List.map_cons, ih1]
          rfl
        · intro r hr
          rw [← h'] at hr
          rcases List.mem_cons.mp hr with rfl | hr
          · rfl
          · exact ih2 r hr

theorem group_by_ok_inv (t : Table) (g a o : String) (u : Table)
    (h : group_by_column t g a o = .ok u) :
    ∃ jg ja, t.colIdx g = some jg ∧ t.colIdx a = some ja ∧
      validOperations.contains o = true ∧
      u.names = [g, a] ∧
      aggRows o jg ja t.rows (sortedKeys (t.colCells jg)) = .ok u.rows := by
  unfold group_by_column at h
  cases hg : t.colIdx g with
  | none =>
    rw [hg] at h
    exact absurd h (by simp)
  | some jg =>
    rw [hg] at h
    dsimp only at h
    cases ha : t.colIdx a with
    | none =>
      rw [ha] at h
      exact absurd h (by simp)
    | some ja =>
      rw [ha] at h
      dsimp only at h
      by_cases hop : validOperations.contains o = true
      · rw [if_neg (by rw [hop]; simp)] at h
        cases hr : aggRows o jg ja t.rows (sortedKeys (t.colCells jg)) with
        | error e =>
          rw [hr] at h
          exact absurd h (by simp)
        | ok rows =>
          rw [hr] at h
          dsimp only at h
          have h' := Except.ok.inj h
          exact ⟨jg, ja, rfl, rfl, hop, by rw [← h'], by rw [← h', hr]⟩
      · have hop' : validOperations.contains o = false := by simpa using hop
        rw [if_pos (by rw [hop']; simp)] at h
        exact absurd h (by simp)

theorem sortedKeys_nodup (cells : List Value) : (sortedKeys cells).Nodup := by
  unfold sortedKeys
  exact ((List.perm_insertionSort vle _).nodup_iff).mpr (List.nodup_dedup _)

theorem not_missing_bool (w : Value) : (!(w.isMissing)) = true ↔ w ≠ .missing := by
  cases w <;> simp [Value.isMissing]

theorem mem_sortedKeys (cells : List Value) (w : Value) :
    w ∈ sortedKeys cells ↔ (w ∈ cells ∧ w ≠ .missing) := by
  unfold sortedKeys
  rw [(List.perm_insertionSort vle _).mem_iff, List.mem_dedup, List.mem_filter,
    not_missing_bool]

theorem sortedKeys_sorted (cells : List Value) :
    List.Pairwise (fun x y => valLe x y = true ∧ x ≠ y) (sortedKeys cells) := by
  have h1 : List.Pairwise vle (sortedKeys cells) := List.sorted_insertionSort vle _
  have h2 : List.Pairwise (fun x y : Value => x ≠ y) (sortedKeys cells) :=
    sortedKeys_nodup cells
  exact h1.and h2

/-- Claim C8: `group_by_column` fails with `UnknownColumn` when either
column is absent (the group column checked first), fails with
`UnsupportedOperation` when the verb is not one of `mean`, `sum`,
`count`, `min`, `max` (for example `"bogus"`), and with both columns
present and a valid verb it succeeds if and only if no group's cells
mix what the verb cannot combine: `count` always succeeds, `mean`
fails (pandas raises a `TypeError`) as soon as some group holds a
textual non-missing value, and `sum`/`min`/`max` fail exactly when
some group holds both a textual and a numeric value.  On success the
result has exactly two columns — the distinct (non-missing) group-key
values and the aggregation column — with two cells in every row and no
key repeated. -/
theorem group_by_column_spec (t : Table) (g a o : String) :
    (t.colIdx g = none → group_by_column t g a o = .error (.unknownColumn g)) ∧
    (∀ jg, t.colIdx g = some jg → t.colIdx a = none →
      group_by_column t g a o = .error (.unknownColumn a)) ∧
    (∀ jg ja, t.colIdx g = some jg → t.colIdx a = some ja →
      validOperations.contains o = false →
      group_by_column t g a o = .error (.unsupportedOperation o)) ∧
    (∀ jg ja, t.colIdx g = some jg → t.colIdx a = some ja →
      validOperations.contains o = true →
      ((group_by_column t g a o).isOk = true ↔
        ∀ k ∈ sortedKeys (t.colCells jg),
          ¬((((t.rows.filter (fun r => r.getD jg Value.missing == k)).map
                (fun r => r.getD ja Value.missing)).filter
                  (fun v => !(v.isMissing))).any Value.isStr = true ∧
            (o = "mean" ∨ (o ≠ "count" ∧
              (((t.rows.filter (fun r => r.getD jg Value.missing == k)).map
                  (fun r => r.getD ja Value.missing)).filter
                    (fun v => !(v.isMissing))).any (fun v => !(v.isStr)) = true))))) ∧
    (∀ u, group_by_column t g a o = .ok u → ∀ jg, t.colIdx g = some jg →
      u.names = [g, a] ∧
      (∀ r ∈ u.rows, r.length = 2) ∧
      (u.rows.map (fun r => r.getD 0 Value.missing)).Nodup ∧
      (∀ w, w ∈ u.rows.map (fun r => r.getD 0 Value.missing) ↔
        (w ∈ t.colCells jg ∧ w ≠ .missing))) := by
  refine ⟨?_, ?_, ?_, ?_, ?_⟩
  · intro hg
    unfold group_by_column
    rw [hg]
  · intro jg hg ha
    unfold group_by_column
    rw [hg, ha]
  · intro jg ja hg ha hop
    unfold group_by_column
    rw [hg, ha]
    dsimp only
    rw [if_pos (by rw [hop]; simp)]
  · intro jg ja hg ha hop
    have hred : (group_by_column t g a o).isOk =
        (aggRows o jg ja t.rows (sortedKeys (t.colCells jg))).isOk := by
      unfold group_by_column
      rw [hg, ha]
      dsimp only
      rw [if_neg (by rw [hop]; simp)]
      cases hr : aggRows o jg ja t.rows (sortedKeys (t.colCells jg)) <;> rfl
    rw [hred, aggRows_isOk]
    constructor
    · intro H k hk hcond
      have h1 := H k hk
      have h2 := (aggregateOp_isOk_char o _ hop).mpr hcond
      rw [h1] at h2
      exact Bool.noConfusion h2
    · intro H k hk
      rcases Bool.eq_false_or_eq_true (aggregateOp o ((t.rows.filter
          (fun r => r.getD jg Value.missing == k)).map
            (fun r => r.getD ja Value.missing))).isOk with hok | hok
      · exact hok
      · exact absurd ((aggregateOp_isOk_char o _ hop).mp hok) (H k hk)
  · intro u hu jg hg
    obtain ⟨jg', ja, hg', ha, hop, hnames, hrows⟩ := group_by_ok_inv t g a o u hu
    rw [hg] at hg'
    obtain rfl := Option.some.inj hg'
    obtain ⟨hkeys, hlen⟩ :=
      aggRows_ok_keys o jg ja t.rows (sortedKeys (t.colCells jg)) u.rows hrows
    refine ⟨hnames, hlen, ?_, ?_⟩
    · rw [hkeys]
      exact sortedKeys_nodup _
    · rw [hkeys]
      exact fun w => mem_sortedKeys _ w

/-- Claim C8 (witness): a concrete grouping with the `count` verb
succeeds, its hypotheses checked at the input. -/
theorem group_by_column_spec_witness :
    groupTable.colIdx "g" = some 0 ∧ groupTable.colIdx "x" = some 1 ∧
    validOperations.contains "count" = true ∧
    (group_by_column groupTable "g" "x" "count").isOk = true :=
  ⟨by decide, by decide, by decide,
    ((group_by_column_spec groupTable "g" "x" "count").2.2.2.1 0 1
      (by decide) (by decide) (by decide)).mpr (by decide)⟩

/-- Claim C8 (counterexample to the unamended statement): with both
columns present and the valid verb `mean`, `group_by_column` does not
succeed — the aggregation column is textual, and `grouped.mean()`
raises the aggregation `TypeError` (`"agg function failed"` in pandas
≥ 2.0, `DataError` before) instead of returning a table. -/
theorem group_by_column_mean_raises :
    textGroupTable.colIdx "g" = some 0 ∧ textGroupTable.colIdx "x" = some 1 ∧
    validOperations.contains "mean" = true ∧
    group_by_column textGroupTable "g" "x" "mean" = .error .aggregationTypeError := by
  decide

/-- Claim C10: when `group_by_column` succeeds on a table with at
least one row, the group keys in its result are listed in strictly
ascending sorted key order — not in first-seen order — and are exactly
the distinct non-missing values of the grouping column (pandas
`groupby` sorts the keys, `sort=True` being the default). -/
theorem group_by_column_sorted (t : Table) (g a o : String) (u : Table) (jg : Nat)
    (h1 : t.colIdx g = some jg) (h2 : group_by_column t g a o = .ok u)
    (_h3 : t.rows ≠ []) :
    List.Pairwise (fun x y => valLe x y = true ∧ x ≠ y)
      (u.rows.map (fun r => r.getD 0 Value.missing)) ∧
    (∀ w, w ∈ u.rows.map (fun r => r.getD 0 Value.missing) ↔
      (w ∈ t.colCells jg ∧ w ≠ .missing)) := by
  obtain ⟨jg', ja, hg', ha, hop, hnames, hrows⟩ := group_by_ok_inv t g a o u h2
  rw [h1] at hg'
  obtain rfl := Option.some.inj hg'
  obtain ⟨hkeys, _⟩ :=
    aggRows_ok_keys o jg ja t.rows (sortedKeys (t.colCells jg)) u.rows hrows
  rw [hkeys]
  exact ⟨sortedKeys_sorted _, fun w => mem_sortedKeys _ w⟩

/-- Claim C10 (witness): on a table whose keys first appear as
`b, a`, the result lists them sorted as `a, b`, not in first-seen
order. -/
theorem group_by_column_sorted_witness :
    groupTable.colIdx "g" = some 0 ∧
    group_by_column groupTable "g" "x" "count" =
      .ok ⟨["g", "x"], [0, 1], [[.str "a", .int 1], [.str "b", .int 2]]⟩ ∧
    groupTable.rows ≠ [] ∧
    List.Pairwise (fun x y => valLe x y = true ∧ x ≠ y)
      ((⟨["g", "x"], [0, 1],
          [[.str "a", .int 1], [.str "b", .int 2]]⟩ : Table).rows.map
        (fun r => r.getD 0 Value.missing)) :=
  ⟨by decide, by decide, by decide,
    (group_by_column_sorted groupTable "g" "x" "count"
      ⟨["g", "x"], [0, 1], [[.str "a", .int 1], [.str "b", .int 2]]⟩ 0
      (by decide) (by decide) (by decide)).1⟩
